import Mathlib

/-!
Formal model of the Pocket encrypted vault: the crypto service
(`src/services/crypto.service.ts`), the authentication state machine
(`src/contexts/AuthContext.tsx`) and the cloud sync engine
(`src/services/firebaseSync.service.ts`), as a shallow embedding.

Conventions used throughout:
* Byte buffers (`Uint8Array`, base64 strings, raw key material) are
  modelled as `List Nat`.  The base64 transport encoding of the
  `crypto-helpers` utilities is a bijection between buffers and strings
  and is modelled as the identity on byte lists.
* The platform Web Crypto primitives (`crypto.subtle` AES-GCM and
  PBKDF2) are external collaborators.  They are modelled by concrete
  executable functions that satisfy the interface contract the source
  relies on: AES-GCM is a keystream cipher with an authentication tag
  appended (decryption checks the tag and fails with `none` on
  mismatch); PBKDF2 is a deterministic function of pin, salt and
  iteration count.
* Wall-clock instants (`Date.now()`, ISO-8601 timestamps) are `Nat`
  milliseconds; `new Date(a) > new Date(b)` becomes `b < a`.
* Per-call randomness (fresh IVs) is passed as an explicit argument.
-/

namespace Pocket

abbrev Bytes := List Nat

/-! ## Model of the platform AES-GCM primitive (crypto.subtle) -/

/-- Tag length of the modelled AES-GCM authentication tag (bytes). -/
def TAG_LENGTH : Nat := 16

/-- Keystream of the modelled AES-GCM cipher: a deterministic stream of
`n` words derived from the key and the IV. -/
def keystream (key iv : Bytes) (n : Nat) : Bytes :=
  (List.range n).map (fun i => key.sum * 131 + iv.sum * 257 + i * 31 + 7)

/-- Authentication tag of the modelled AES-GCM cipher over a plaintext. -/
def gcmTag (key iv pt : Bytes) : Bytes :=
  (List.range TAG_LENGTH).map
    (fun i => key.sum * 37 + iv.sum * 53 + pt.sum * 11 + pt.length * 3 + i)

/-- Pointwise xor of two byte lists (result as long as the shorter). -/
def xorBytes (a b : Bytes) : Bytes := List.zipWith (fun x y => x ^^^ y) a b

/-- Model of `crypto.subtle.encrypt` with AES-GCM: keystream-xored body
followed by the authentication tag. -/
def aesGcmEncrypt (key iv pt : Bytes) : Bytes :=
  xorBytes pt (keystream key iv pt.length) ++ gcmTag key iv pt

/-- Model of `crypto.subtle.decrypt` with AES-GCM: splits body and tag,
recovers the plaintext and checks the tag; any mismatch fails with
`none` (the single generic failure the source maps to its wrong-secret
handling). -/
def gcmBody (key iv ct : Bytes) : Bytes :=
  xorBytes (ct.take (ct.length - TAG_LENGTH))
    (keystream key iv (ct.take (ct.length - TAG_LENGTH)).length)

def aesGcmDecrypt (key iv ct : Bytes) : Option Bytes :=
  if ct.length < TAG_LENGTH then none
  else if gcmTag key iv (gcmBody key iv ct) == ct.drop (ct.length - TAG_LENGTH) then
    some (gcmBody key iv ct)
  else none

/-! ## Constants (`src/utils/constants.ts`) -/

def KDF_ITERATIONS : Nat := 300000

def IV_LENGTH : Nat := 12

def SALT_LENGTH : Nat := 16

/-- Lockout schedule in seconds: 0s, 30s, 10min, 1h, 6h. -/
def LOCKOUT_SCHEDULE : List Nat := [0, 30, 600, 3600, 21600]

/-- Auto-lock timeout in seconds (2 minutes). -/
def AUTO_LOCK_TIMEOUT : Nat := 120

/-! ## CryptoService (`src/services/crypto.service.ts`) -/

/-- Byte view of a string (`stringToArrayBuffer`). -/
def strBytes (s : String) : Bytes := s.data.map Char.toNat

/-- String view of a byte list (`arrayBufferToString`). -/
def bytesStr (b : Bytes) : String := String.mk (b.map Char.ofNat)

/-- Model of `derivePinKey`: the platform PBKDF2-HMAC-SHA256 derivation,
a deterministic function of the pin, the salt and the iteration count
producing a 32-byte key. -/
def derivePinKey (pin : String) (salt : Bytes) (iterations : Nat) : Bytes :=
  (List.range 32).map
    (fun i => (strBytes pin).sum * 3 + salt.sum * 5 + iterations * 7
      + (strBytes pin).length * 13 + i * 11)

/-- Embeds `wrapMasterKey`: AES-GCM encryption of the raw exported
master-key bytes under the pin key, with the fresh IV passed explicitly;
returns the pair `(ciphertext, iv)`. -/
def wrapMasterKey (masterKey pinKey : Bytes) (iv : Bytes) : Bytes × Bytes :=
  (aesGcmEncrypt pinKey iv masterKey, iv)

/-- Embeds `unwrapMasterKey`: AES-GCM decryption of the wrapped blob
under the pin key; `none` is the generic wrong-secret failure. -/
def unwrapMasterKey (wrappedKey iv pinKey : Bytes) : Option Bytes :=
  aesGcmDecrypt pinKey iv wrappedKey

/-- Embeds `encryptData`: AES-GCM encryption of the UTF string under the
master key with an explicit fresh IV; returns `(ciphertext, iv)`. -/
def encryptData (data : String) (masterKey : Bytes) (iv : Bytes) : Bytes × Bytes :=
  (aesGcmEncrypt masterKey iv (strBytes data), iv)

/-- Embeds `decryptData`: AES-GCM decryption back to a string. -/
def decryptData (ciphertext iv : Bytes) (masterKey : Bytes) : Option String :=
  (aesGcmDecrypt masterKey iv ciphertext).map bytesStr

/-! ## AES-GCM model facts -/

theorem xorBytes_length (a b : Bytes) : (xorBytes a b).length = min a.length b.length := by
  simp [xorBytes]

theorem keystream_length (key iv : Bytes) (n : Nat) : (keystream key iv n).length = n := by
  simp [keystream]

theorem xorBytes_cancel (a : Bytes) : ∀ b : Bytes, a.length ≤ b.length →
    xorBytes (xorBytes a b) b = a := by
  induction a with
  | nil => intro b _; cases b <;> rfl
  | cons x xs ih =>
    intro b hb
    cases b with
    | nil => simp at hb
    | cons y ys =>
      simp only [xorBytes, List.zipWith_cons_cons] at *
      rw [Nat.xor_cancel_right, ih ys (Nat.le_of_succ_le_succ hb)]

theorem aesGcm_roundtrip (key iv pt : Bytes) :
    aesGcmDecrypt key iv (aesGcmEncrypt key iv pt) = some pt := by
  have hbody : (xorBytes pt (keystream key iv pt.length)).length = pt.length := by
    rw [xorBytes_length, keystream_length, Nat.min_self]
  have htag : (gcmTag key iv pt).length = TAG_LENGTH := by
    simp [gcmTag]
  have hlen : (aesGcmEncrypt key iv pt).length = pt.length + TAG_LENGTH := by
    simp [aesGcmEncrypt, hbody, htag]
  have hsub : (aesGcmEncrypt key iv pt).length - TAG_LENGTH = pt.length := by
    omega
  have hnotlt : ¬ (aesGcmEncrypt key iv pt).length < TAG_LENGTH := by
    omega
  have htake : (aesGcmEncrypt key iv pt).take pt.length
      = xorBytes pt (keystream key iv pt.length) := by
    unfold aesGcmEncrypt
    exact List.take_left' hbody
  have hdrop : (aesGcmEncrypt key iv pt).drop pt.length = gcmTag key iv pt := by
    unfold aesGcmEncrypt
    exact List.drop_left' hbody
  have hcancel : xorBytes (xorBytes pt (keystream key iv pt.length))
      (keystream key iv pt.length) = pt := by
    apply xorBytes_cancel
    rw [keystream_length]
  have hb : gcmBody key iv (aesGcmEncrypt key iv pt) = pt := by
    unfold gcmBody
    rw [hsub, htake, hbody, hcancel]
  unfold aesGcmDecrypt
  rw [if_neg hnotlt, hb, hsub, hdrop]
  simp

theorem encryptData_roundtrip (data : String) (masterKey iv : Bytes) :
    decryptData (encryptData data masterKey iv).1 iv masterKey = some data := by
  unfold decryptData encryptData
  rw [aesGcm_roundtrip]
  simp only [Option.map_some']
  congr 1
  unfold bytesStr strBytes
  rw [List.map_map]
  have : (Char.ofNat ∘ Char.toNat) = id := by
    funext c
    simp [Char.ofNat_toNat]
  rw [this, List.map_id]

/-! ## VaultMeta and AuthContext (`src/contexts/AuthContext.tsx`)

Persistence goes through the `StorageService` (IndexedDB; implementation
staged in `src/src/pages/RecordDetailPage.tsx`): the meta object store
has `keyPath: 'k'`, `getMeta` is `store.get('config')` resolving
`result || null`, and `saveMeta` is `store.put(meta)` — an overwrite of
the single row keyed `k = 'config'`.  VaultMeta is therefore a
singleton overwritten whole on each save, and persistence is modelled
by threading the current `MetaConfig` value in and out of each call
(`none` standing for an absent `config` row). -/

/-- Persisted vault metadata row (the `meta` object saved by
`storageService.saveMeta`).  `lockUntil` and `lastFailedTimestamp` are
ISO-8601 strings in the source, modelled as millisecond instants. -/
structure MetaConfig where
  encryptedMasterKey : Bytes
  masterIv : Bytes
  kdfSalt : Bytes
  kdfIterations : Nat
  failedAttempts : Bytes
  autoLockTimeout : Nat
  lockUntil : Option Nat := none
  lastFailedTimestamp : Option Nat := none
deriving Repr, DecidableEq

/-- Observable outcome of one `authenticate` call: the returned boolean,
the persisted VaultMeta afterwards, the React state afterwards
(`failedAttempts`, `lockUntil`, `masterKey`), and two instrumentation
counters recording how many PBKDF2 derivations and how many
`saveMeta` writes the executed path performed. -/
structure AuthOutcome where
  ok : Bool
  meta : Option MetaConfig
  memFailedAttempts : Nat
  memLockUntil : Option Nat
  masterKey : Option Bytes
  pbkdf2Calls : Nat
  metaWrites : Nat
deriving Repr, DecidableEq

/-- Embeds `setupPin`: generates (here: receives) a fresh master key and
salt, derives the pin key, wraps the master key, encrypts the initial
failed-attempt counter string `"0"` under the master key, and persists
the resulting VaultMeta. -/
def setupPin (pin : String) (newMasterKey salt wrapIv faIv : Bytes) : MetaConfig :=
  let pinKey := derivePinKey pin salt KDF_ITERATIONS
  let w := wrapMasterKey newMasterKey pinKey wrapIv
  let fa := encryptData "0" newMasterKey faIv
  { encryptedMasterKey := w.1
    masterIv := w.2
    kdfSalt := salt
    kdfIterations := KDF_ITERATIONS
    failedAttempts := fa.1
    autoLockTimeout := AUTO_LOCK_TIMEOUT }

/-- Embeds the body of `authenticate` past the early-return checks:
derives the pin key, attempts to unwrap the master key, and takes either
the success path (persist reset counter, clear `lockUntil` and
`lastFailedTimestamp`) or the failure path (increment the captured
attempt count, persist `lastFailedTimestamp`, and additionally persist a
new `lockUntil` when the schedule yields a lockout).  `memFailed` is the
value of the `failedAttempts` state variable captured by the callback
closure; `ivSuccess` is the fresh IV of the success-path encryption. -/
def authCore (meta : MetaConfig) (memFailed : Nat) (memLock : Option Nat)
    (memKey : Option Bytes) (pin : String) (now : Nat) (ivSuccess : Bytes) : AuthOutcome :=
  let pinKey := derivePinKey pin meta.kdfSalt meta.kdfIterations
  match unwrapMasterKey meta.encryptedMasterKey meta.masterIv pinKey with
  | some unwrappedKey =>
      let fa := encryptData "0" unwrappedKey ivSuccess
      { ok := true
        meta := some { meta with
          failedAttempts := fa.1
          lockUntil := none
          lastFailedTimestamp := none }
        memFailedAttempts := 0
        memLockUntil := none
        masterKey := some unwrappedKey
        pbkdf2Calls := 1
        metaWrites := 1 }
  | none =>
      let newAttempts := memFailed + 1
      let newLockUntil : Option Nat :=
        if LOCKOUT_SCHEDULE.length ≤ newAttempts then
          some (now + LOCKOUT_SCHEDULE.getD (LOCKOUT_SCHEDULE.length - 1) 0 * 1000)
        else if 1 < newAttempts then
          some (now + LOCKOUT_SCHEDULE.getD (newAttempts - 1) 0 * 1000)
        else none
      match newLockUntil with
      | some l =>
          { ok := false
            meta := some { meta with
              lockUntil := some l
              lastFailedTimestamp := some now }
            memFailedAttempts := newAttempts
            memLockUntil := some l
            masterKey := memKey
            pbkdf2Calls := 1
            metaWrites := 2 }
      | none =>
          { ok := false
            meta := some { meta with lastFailedTimestamp := some now }
            memFailedAttempts := newAttempts
            memLockUntil := memLock
            masterKey := memKey
            pbkdf2Calls := 1
            metaWrites := 1 }

/-- Embeds `authenticate`: reads the persisted VaultMeta (absent meta
returns `false`); an unexpired persisted `lockUntil` is rejected before
any key derivation, updating only the in-memory `lockUntil` mirror; the
whole body is wrapped in a `try/catch` that returns `false`, so the
function is total and never throws. -/
def authenticate (meta? : Option MetaConfig) (memFailed : Nat) (memLock : Option Nat)
    (memKey : Option Bytes) (pin : String) (now : Nat) (ivSuccess : Bytes) : AuthOutcome :=
  match meta? with
  | none =>
      { ok := false, meta := none, memFailedAttempts := memFailed,
        memLockUntil := memLock, masterKey := memKey, pbkdf2Calls := 0, metaWrites := 0 }
  | some meta =>
      match meta.lockUntil with
      | some lockTime =>
          if now < lockTime then
            { ok := false, meta := some meta, memFailedAttempts := memFailed,
              memLockUntil := some lockTime, masterKey := memKey,
              pbkdf2Calls := 0, metaWrites := 0 }
          else
            authCore meta memFailed memLock memKey pin now ivSuccess
      | none => authCore meta memFailed memLock memKey pin now ivSuccess

/-- Embeds the app-level wiring of `authenticate` inside a mounted
`AuthProvider`: the callback is memoized with `useCallback(..., [])`, so
the `failedAttempts` state variable read inside the closure is the value
captured at the initial render, which is `0`, on every call for the
lifetime of the mount. -/
def authenticateApp (meta? : Option MetaConfig) (memLock : Option Nat)
    (memKey : Option Bytes) (pin : String) (now : Nat) (ivSuccess : Bytes) : AuthOutcome :=
  authenticate meta? 0 memLock memKey pin now ivSuccess

/-! ## FirebaseSyncService (`src/services/firebaseSync.service.ts`)

Local records (`StoredRecord`) carry an id, a type tag, a content
payload (the ciphertext/plaintext blob and tags, opaque to the sync
engine) and two ISO timestamps, modelled in milliseconds.  The remote
Firestore collection keys one `CloudRecord` document per record id; the
local IndexedDB store keys one record per id.  Both stores are modelled
as lists carrying at most one entry per id in well-formed states; reads
and writes go through id-keyed lookup/update functions.

The local side goes through the `StorageService` (IndexedDB;
implementation staged in `src/src/pages/RecordDetailPage.tsx`): the
records object store is created with `keyPath: 'id'`, so
`getAllRecords` (`store.getAll()`) yields one row per id,
`saveRecord` (`store.put(record)`) overwrites the row carrying the
record's id and inserts when absent, and `deleteRecord`
(`store.delete(id)`) removes the row with that key.  Fields a
downloaded cloud document carries beyond the local schema are never
read back by the sync engine (it reads only `id` and `updatedAt`
locally and overwrites the cloud fields on upload), so saving a cloud
document locally is modelled as saving its record part. -/

structure SRecord where
  id : Nat
  rtype : String
  payload : String
  createdAt : Nat
  updatedAt : Nat
deriving Repr, DecidableEq

/-- Remote document: the record plus `{cloudUpdatedAt, deviceId,
deleted}`.  The optional `deleted` flag (absent = not deleted) is a
`Bool`. -/
structure CloudRecord where
  record : SRecord
  cloudUpdatedAt : Nat
  deviceId : String
  deleted : Bool
deriving Repr, DecidableEq

structure SyncResult where
  uploaded : Nat
  downloaded : Nat
  deleted : Nat
  conflicts : Nat
  errors : List String
deriving Repr, DecidableEq

/-- Keyed lookup in a list-modelled store. -/
def getBy {α : Type} (key : α → Nat) (l : List α) (i : Nat) : Option α :=
  l.find? (fun x => key x == i)

/-- Keyed overwrite-or-insert in a list-modelled store. -/
def upsertBy {α : Type} (key : α → Nat) (l : List α) (r : α) : List α :=
  if l.any (fun x => key x == key r) then
    l.map (fun x => if key x == key r then r else x)
  else l ++ [r]

/-- Lookup in the local store (`localMap.get` / IndexedDB `getRecord`). -/
def getLocal (l : List SRecord) (i : Nat) : Option SRecord :=
  getBy (fun r => r.id) l i

/-- Lookup in a cloud record list (`cloudMap.get`, keyed by record id). -/
def getCloud (cs : List CloudRecord) (i : Nat) : Option CloudRecord :=
  getBy (fun c => c.record.id) cs i

/-- Membership test (`localMap.has`). -/
def hasLocal (l : List SRecord) (i : Nat) : Bool :=
  l.any (fun r => r.id == i)

/-- Embeds `storageService.saveRecord`: `store.put(record)` on the
records store (`keyPath: 'id'`) — overwrite the row keyed by the
record's id, inserting when absent. -/
def saveLocal (l : List SRecord) (r : SRecord) : List SRecord :=
  upsertBy (fun x => x.id) l r

/-- Embeds `storageService.deleteRecord`: `store.delete(id)` on the
records store — remove the row keyed by the given id. -/
def removeLocal (l : List SRecord) (i : Nat) : List SRecord :=
  l.filter (fun r => r.id != i)

/-- Firestore `setDoc` on the document keyed by the record's id:
overwrite when present, create when absent. -/
def putCloud (cs : List CloudRecord) (c : CloudRecord) : List CloudRecord :=
  upsertBy (fun x => x.record.id) cs c

/-- Embeds the validation at the top of `uploadRecord`: JS truthiness of
`record.id`, `record.type`, `record.createdAt`, `record.updatedAt`. -/
def validRecord (r : SRecord) : Bool :=
  r.id != 0 && r.rtype != "" && r.createdAt != 0 && r.updatedAt != 0

/-- Embeds `uploadRecord`: validates the record, then writes
`{...record, cloudUpdatedAt: Date.now(), deviceId}` to the document
keyed by the record id.  A failed validation throws in the source and is
caught per record by the caller; it is modelled as `none`. -/
def uploadRecord (deviceId : String) (now : Nat) (r : SRecord) : Option CloudRecord :=
  if validRecord r then some ⟨r, now, deviceId, false⟩ else none

/-- Tombstone retention window: 24 hours in milliseconds. -/
def TOMBSTONE_WINDOW : Nat := 86400000

/-- Embeds the per-document filter of `downloadAllRecords`: keep
non-deleted records, and deleted ones whose `cloudUpdatedAt` is truthy
and less than 24 hours before now. -/
def keepPred (now : Nat) (d : CloudRecord) : Bool :=
  !d.deleted || (d.cloudUpdatedAt != 0 && now - d.cloudUpdatedAt < TOMBSTONE_WINDOW)

/-- Embeds `downloadAllRecords`: fetches every document and keeps those
passing `keepPred`. -/
def downloadAllRecords (now : Nat) (cloud : List CloudRecord) : List CloudRecord :=
  cloud.filter (keepPred now)

/-- State threaded through one `syncToCloud` run: the local store, the
remote collection, and the accumulating `SyncResult`. -/
structure SyncState where
  localStore : List SRecord
  cloudStore : List CloudRecord
  res : SyncResult
deriving Repr, DecidableEq

/-- Embeds the step-4 loop body of `syncToCloud` for one local record:
lookups go to the snapshot `snap` taken at the start of the run (the
`cloudMap`), while effects apply to the live stores.  Absent in cloud →
upload; cloud tombstone → delete locally; otherwise compare
`local.updatedAt` against `cloud.cloudUpdatedAt`: local strictly newer
uploads only when the cloud copy came from another device, cloud
strictly newer overwrites the local copy, equal is a no-op.  A failing
upload is caught and recorded in `errors`. -/
def processLocal (dev : String) (now : Nat) (snap : List CloudRecord)
    (st : SyncState) (r : SRecord) : SyncState :=
  match getCloud snap r.id with
  | none =>
      match uploadRecord dev now r with
      | some c =>
          { st with cloudStore := putCloud st.cloudStore c,
                    res := { st.res with uploaded := st.res.uploaded + 1 } }
      | none =>
          { st with res := { st.res with
              errors := st.res.errors ++ ["Failed to sync local record"] } }
  | some c =>
      if c.deleted then
        { st with localStore := removeLocal st.localStore r.id,
                  res := { st.res with deleted := st.res.deleted + 1 } }
      else if c.cloudUpdatedAt < r.updatedAt then
        if c.deviceId != dev then
          match uploadRecord dev now r with
          | some c2 =>
              { st with cloudStore := putCloud st.cloudStore c2,
                        res := { st.res with uploaded := st.res.uploaded + 1 } }
          | none =>
              { st with res := { st.res with
                  errors := st.res.errors ++ ["Failed to sync local record"] } }
        else st
      else if r.updatedAt < c.cloudUpdatedAt then
        { st with localStore := saveLocal st.localStore c.record,
                  res := { st.res with downloaded := st.res.downloaded + 1 } }
      else st

/-- Embeds the step-5 loop body of `syncToCloud` for one snapshot cloud
record: records absent from the `localMap` snapshot are downloaded
unless tombstoned. -/
def processCloudOnly (local0 : List SRecord) (st : SyncState)
    (c : CloudRecord) : SyncState :=
  if hasLocal local0 c.record.id then st
  else if c.deleted then st
  else
    { st with localStore := saveLocal st.localStore c.record,
              res := { st.res with downloaded := st.res.downloaded + 1 } }

/-- Embeds one non-reentrant signed-in `syncToCloud` run as a function
of the device id, the wall clock, the local store and the remote
collection: it snapshots both sides (the cloud side through
`downloadAllRecords`), runs the step-4 loop over the local records and
the step-5 loop over the snapshot cloud records, and returns the final
stores with the accumulated `SyncResult`.  (The sync cursor read in
step 1 is logged but never used in a merge decision, and the cursor
write of step 6 touches neither store nor result, so both are elided.) -/
def syncToCloud (dev : String) (now : Nat) (local0 : List SRecord)
    (cloud0 : List CloudRecord) : SyncState :=
  let snap := downloadAllRecords now cloud0
  let st0 : SyncState := ⟨local0, cloud0, ⟨0, 0, 0, 0, []⟩⟩
  let st1 := local0.foldl (processLocal dev now snap) st0
  snap.foldl (processCloudOnly local0) st1

/-- Embeds `firebaseSyncService.deleteRecord`: a merge `setDoc` writing
`{id, deleted: true, cloudUpdatedAt: Date.now(), deviceId}` onto the
document keyed by the record id — merging keeps the remaining fields of
an existing document and leaves them absent (defaults) on a fresh
one. -/
def cloudDeleteRecord (dev : String) (now : Nat) (cloud : List CloudRecord)
    (recordId : Nat) : List CloudRecord :=
  match getCloud cloud recordId with
  | some c =>
      putCloud cloud { c with deleted := true, cloudUpdatedAt := now, deviceId := dev }
  | none =>
      cloud ++ [⟨⟨recordId, "", "", 0, 0⟩, now, dev, true⟩]

/-- Embeds the `deleteRecord` flow of `VaultContext`: the local row is
removed first (awaited), then the cloud document is merge-updated to a
tombstone. -/
def deleteRecordFlow (dev : String) (now : Nat) (localStore : List SRecord)
    (cloud : List CloudRecord) (recordId : Nat) : List SRecord × List CloudRecord :=
  (removeLocal localStore recordId, cloudDeleteRecord dev now cloud recordId)

/-! ## Keyed-store lemmas -/

/-- Result of looking up in a filtered store, phrased on the unfiltered
lookup result. -/
def filterGet {α : Type} (p : α → Bool) (o : Option α) : Option α :=
  match o with
  | some x => if p x then some x else none
  | none => none

section StoreLemmas

variable {α : Type} (key : α → Nat)

theorem getBy_eq_some {l : List α} {i : Nat} {r : α}
    (h : getBy key l i = some r) : key r = i ∧ r ∈ l := by
  unfold getBy at h
  refine ⟨?_, List.mem_of_find?_eq_some h⟩
  have := List.find?_some h
  simpa using this

theorem getBy_eq_none {l : List α} {i : Nat}
    (h : ∀ x ∈ l, key x ≠ i) : getBy key l i = none := by
  unfold getBy
  rw [List.find?_eq_none]
  intro x hx
  simpa using h x hx

theorem getBy_mem {l : List α} {r : α} (hnd : (l.map key).Nodup)
    (h : r ∈ l) : getBy key l (key r) = some r := by
  induction l with
  | nil => cases h
  | cons x xs ih =>
    rw [List.map_cons, List.nodup_cons] at hnd
    rcases List.mem_cons.mp h with h1 | h2
    · subst h1
      unfold getBy
      exact List.find?_cons_of_pos _ (by simp)
    · have hx : key x ≠ key r := by
        intro he
        exact hnd.1 (he ▸ List.mem_map_of_mem key h2)
      unfold getBy
      rw [List.find?_cons_of_neg _ (by simp [hx])]
      exact ih hnd.2 h2

theorem find?_cons_pos (p : α → Bool) (a : α) (l : List α) (h : p a = true) :
    (a :: l).find? p = some a :=
  List.find?_cons_of_pos l h

theorem find?_cons_neg (p : α → Bool) (a : α) (l : List α) (h : p a = false) :
    (a :: l).find? p = l.find? p :=
  List.find?_cons_of_neg l (by simp [h])

theorem find?_replace_of_any (p : α → Bool) (r : α) (hr : p r = true) :
    ∀ l : List α, l.any p = true →
      (l.map fun x => if p x then r else x).find? p = some r := by
  intro l
  induction l with
  | nil => intro h; simp at h
  | cons x xs ih =>
    intro h
    by_cases hx : p x = true
    · simp only [List.map_cons, if_pos hx]
      exact List.find?_cons_of_pos _ hr
    · have hx' : p x = false := by simpa using hx
      simp only [List.map_cons, if_neg hx]
      rw [List.find?_cons_of_neg _ (by simp [hx'])]
      apply ih
      simpa [hx'] using h

theorem find?_replace_other (p q : α → Bool) (r : α)
    (hqr : q r = false) (hpq : ∀ x, q x = true → p x = false) :
    ∀ l : List α, (l.map fun x => if p x then r else x).find? q = l.find? q := by
  intro l
  induction l with
  | nil => rfl
  | cons x xs ih =>
    by_cases hq : q x = true
    · have hp : p x = false := hpq x hq
      simp only [List.map_cons, hp]
      rw [if_neg (by simp [hp]), List.find?_cons_of_pos _ hq, List.find?_cons_of_pos _ hq]
    · have hq' : q x = false := by simpa using hq
      simp only [List.map_cons]
      by_cases hp : p x = true
      · rw [if_pos hp, List.find?_cons_of_neg _ (by simp [hqr]),
          List.find?_cons_of_neg _ (by simp [hq']), ih]
      · rw [if_neg hp, List.find?_cons_of_neg _ (by simp [hq']),
          List.find?_cons_of_neg _ (by simp [hq']), ih]

theorem find?_append_none (p : α → Bool) (l₁ l₂ : List α)
    (h : l₁.find? p = none) : (l₁ ++ l₂).find? p = l₂.find? p := by
  induction l₁ with
  | nil => rfl
  | cons x xs ih =>
    by_cases hx : p x = true
    · rw [List.find?_cons_of_pos _ hx] at h
      cases h
    · have hx' : p x = false := by simpa using hx
      rw [List.find?_cons_of_neg _ (by simp [hx'])] at h
      rw [List.cons_append, List.find?_cons_of_neg _ (by simp [hx'])]
      exact ih h

theorem any_false_find?_none (p : α → Bool) (l : List α)
    (h : l.any p = false) : l.find? p = none := by
  rw [List.find?_eq_none]
  intro x hx hpx
  rw [List.any_eq_false] at h
  exact h x hx hpx

theorem getBy_upsert_same (l : List α) (r : α) :
    getBy key (upsertBy key l r) (key r) = some r := by
  unfold upsertBy
  by_cases h : l.any (fun x => key x == key r) = true
  · rw [if_pos h]
    unfold getBy
    exact find?_replace_of_any _ _ (by simp) l h
  · have h' : l.any (fun x => key x == key r) = false := by simpa using h
    rw [if_neg (by simp [h'])]
    unfold getBy
    rw [find?_append_none _ _ _ (any_false_find?_none _ l h')]
    exact List.find?_cons_of_pos _ (by simp)

theorem getBy_upsert_other (l : List α) (r : α) (i : Nat) (hi : i ≠ key r) :
    getBy key (upsertBy key l r) i = getBy key l i := by
  unfold upsertBy
  by_cases h : l.any (fun x => key x == key r) = true
  · rw [if_pos h]
    unfold getBy
    apply find?_replace_other
    · simp [Ne.symm hi]
    · intro x hx
      simp only [beq_iff_eq] at hx ⊢
      simp [hx ▸ hi]
  · have h' : l.any (fun x => key x == key r) = false := by simpa using h
    rw [if_neg (by simp [h'])]
    unfold getBy
    have hr : (key r == i) = false := by
      simp [Ne.symm hi]
    induction l with
    | nil =>
      rw [List.nil_append, find?_cons_neg (fun x => key x == i) r [] hr]
    | cons x xs ih =>
      rw [List.any_cons, Bool.or_eq_false_iff] at h'
      simp only [List.cons_append]
      by_cases hx : (key x == i) = true
      · rw [find?_cons_pos (fun y => key y == i) x (xs ++ [r]) hx,
          find?_cons_pos (fun y => key y == i) x xs hx]
      · have hx' : (key x == i) = false := by simpa using hx
        rw [find?_cons_neg (fun y => key y == i) x (xs ++ [r]) hx',
          find?_cons_neg (fun y => key y == i) x xs hx']
        exact ih (by simp [h'.2]) h'.2

theorem find?_filter_subset (p q : α → Bool)
    (h : ∀ x, q x = true → p x = true) :
    ∀ l : List α, (l.filter p).find? q = l.find? q := by
  intro l
  induction l with
  | nil => rfl
  | cons x xs ih =>
    by_cases hq : q x = true
    · have hp : p x = true := h x hq
      rw [List.filter_cons_of_pos hp, List.find?_cons_of_pos _ hq,
        List.find?_cons_of_pos _ hq]
    · have hq' : q x = false := by simpa using hq
      by_cases hp : p x = true
      · rw [List.filter_cons_of_pos hp, List.find?_cons_of_neg _ (by simp [hq']),
          List.find?_cons_of_neg _ (by simp [hq']), ih]
      · rw [List.filter_cons_of_neg (by simpa using hp),
          List.find?_cons_of_neg _ (by simp [hq']), ih]

theorem getBy_filter_char (p : α → Bool) (l : List α) (i : Nat)
    (hnd : (l.map key).Nodup) :
    getBy key (l.filter p) i = filterGet p (getBy key l i) := by
  induction l with
  | nil => rfl
  | cons x xs ih =>
    rw [List.map_cons, List.nodup_cons] at hnd
    by_cases hq : (key x == i) = true
    · have hgx : getBy key (x :: xs) i = some x := List.find?_cons_of_pos _ hq
      rw [hgx]
      by_cases hp : p x = true
      · rw [List.filter_cons_of_pos hp]
        have hfind : getBy key (x :: List.filter p xs) i = some x :=
          List.find?_cons_of_pos _ hq
        rw [hfind]
        simp [filterGet, hp]
      · have hp' : p x = false := by simpa using hp
        rw [List.filter_cons_of_neg (by simpa using hp)]
        have hnone : getBy key (List.filter p xs) i = none := by
          apply getBy_eq_none
          intro y hy
          have hyx : key y ∈ xs.map key :=
            List.mem_map_of_mem key (List.mem_of_mem_filter hy)
          intro he
          rw [beq_iff_eq] at hq
          exact hnd.1 (by rw [he, ← hq] at hyx; exact hyx)
        rw [hnone]
        simp [filterGet, hp']
    · have hq' : (key x == i) = false := by simpa using hq
      have hgx : getBy key (x :: xs) i = getBy key xs i :=
        List.find?_cons_of_neg _ (by simp [hq'])
      rw [hgx, ← ih hnd.2]
      by_cases hp : p x = true
      · rw [List.filter_cons_of_pos hp]
        exact List.find?_cons_of_neg _ (by simp [hq'])
      · rw [List.filter_cons_of_neg (by simpa using hp)]

theorem map_key_upsert_nodup (l : List α) (r : α)
    (hnd : (l.map key).Nodup) : ((upsertBy key l r).map key).Nodup := by
  unfold upsertBy
  by_cases h : l.any (fun x => key x == key r) = true
  · rw [if_pos h, List.map_map]
    have : (key ∘ fun x => if key x == key r then r else x) = key := by
      funext x
      by_cases hx : (key x == key r) = true
      · simp only [Function.comp]
        rw [if_pos hx]
        rw [beq_iff_eq] at hx
        exact hx.symm
      · simp only [Function.comp]
        rw [if_neg hx]
    rw [this]
    exact hnd
  · have h' : l.any (fun x => key x == key r) = false := by simpa using h
    rw [if_neg (by simp [h']), List.map_append]
    rw [List.nodup_append]
    refine ⟨hnd, List.nodup_singleton _, ?_⟩
    intro a ha hb
    rw [List.mem_map] at hb
    obtain ⟨x, hx, hkx⟩ := hb
    rw [List.mem_singleton] at hx
    subst hx
    rw [List.any_eq_false] at h'
    rw [List.mem_map] at ha
    obtain ⟨y, hy, hky⟩ := ha
    exact h' y hy (by simp [hky, hkx])

theorem map_key_filter_nodup (p : α → Bool) (l : List α)
    (hnd : (l.map key).Nodup) : ((l.filter p).map key).Nodup :=
  List.Nodup.sublist (List.Sublist.map key (List.filter_sublist l)) hnd

end StoreLemmas

theorem getLocal_remove_same (l : List SRecord) (i : Nat) :
    getLocal (removeLocal l i) i = none := by
  unfold getLocal removeLocal
  apply getBy_eq_none
  intro x hx
  have := (List.mem_filter.mp hx).2
  simpa using this

theorem getLocal_remove_other (l : List SRecord) (i j : Nat) (h : i ≠ j) :
    getLocal (removeLocal l j) i = getLocal l i := by
  unfold getLocal removeLocal getBy
  apply find?_filter_subset
  intro x hx
  rw [beq_iff_eq] at hx
  simp [hx, h]

theorem getLocal_save_same (l : List SRecord) (r : SRecord) :
    getLocal (saveLocal l r) r.id = some r := by
  unfold getLocal saveLocal
  exact getBy_upsert_same (fun x => x.id) l r

theorem getLocal_save_other (l : List SRecord) (r : SRecord) (i : Nat)
    (h : i ≠ r.id) : getLocal (saveLocal l r) i = getLocal l i := by
  unfold getLocal saveLocal
  exact getBy_upsert_other (fun x => x.id) l r i h

theorem getCloud_put_same (cs : List CloudRecord) (c : CloudRecord) :
    getCloud (putCloud cs c) c.record.id = some c := by
  unfold getCloud putCloud
  exact getBy_upsert_same (fun x => x.record.id) cs c

theorem getCloud_put_other (cs : List CloudRecord) (c : CloudRecord) (i : Nat)
    (h : i ≠ c.record.id) : getCloud (putCloud cs c) i = getCloud cs i := by
  unfold getCloud putCloud
  exact getBy_upsert_other (fun x => x.record.id) cs c i h

/-- Invariance of a predicate under a left fold. -/
theorem foldl_preserve {σ β : Type} (f : σ → β → σ) (P : σ → Prop) :
    ∀ (l : List β) (s : σ), P s → (∀ s x, x ∈ l → P s → P (f s x)) →
      P (l.foldl f s) := by
  intro l
  induction l with
  | nil => intro s hs _; exact hs
  | cons x xs ih =>
    intro s hs hstep
    exact ih (f s x) (hstep s x (List.mem_cons_self x xs) hs)
      (fun s y hy => hstep s y (List.mem_cons_of_mem x hy))

/-! ## Branch bookkeeping for the `syncToCloud` loops

The following three functions restate the branch structure of
`processLocal` as pure decisions over the snapshot, used only to phrase
the loop-characterisation lemmas below. -/

/-- Effect of the step-4 loop body on the local store: `none` leaves the
row untouched, `some none` removes it, `some (some x)` overwrites it
with `x`. -/
def localEffect (snap : List CloudRecord) (r : SRecord) : Option (Option SRecord) :=
  match getCloud snap r.id with
  | none => none
  | some c =>
      if c.deleted then some none
      else if c.cloudUpdatedAt < r.updatedAt then none
      else if r.updatedAt < c.cloudUpdatedAt then some (some c.record)
      else none

/-- Effect of the step-4 loop body on the cloud store: the document
written to the record's id, if any. -/
def cloudEffect (dev : String) (now : Nat) (snap : List CloudRecord)
    (r : SRecord) : Option CloudRecord :=
  match getCloud snap r.id with
  | none => uploadRecord dev now r
  | some c =>
      if c.deleted then none
      else if c.cloudUpdatedAt < r.updatedAt then
        if c.deviceId != dev then uploadRecord dev now r else none
      else none

/-- Whether the step-4 loop body sees a tombstoned snapshot counterpart
for the record (the branch that deletes locally and counts a deletion). -/
def tombFlag (snap : List CloudRecord) (r : SRecord) : Bool :=
  match getCloud snap r.id with
  | some c => c.deleted
  | none => false

theorem getCloud_eq_some {cs : List CloudRecord} {i : Nat} {c : CloudRecord}
    (h : getCloud cs i = some c) : c.record.id = i ∧ c ∈ cs := by
  unfold getCloud at h
  exact getBy_eq_some (fun x : CloudRecord => x.record.id) h

theorem uploadRecord_eq_some {dev : String} {now : Nat} {r : SRecord}
    {c : CloudRecord} (h : uploadRecord dev now r = some c) :
    c = ⟨r, now, dev, false⟩ ∧ validRecord r = true := by
  unfold uploadRecord at h
  by_cases hv : validRecord r = true
  · rw [if_pos hv] at h
    exact ⟨(Option.some.injEq _ _).mp h.symm ▸ rfl, hv⟩
  · rw [if_neg hv] at h
    cases h

theorem processLocal_localStore (dev : String) (now : Nat)
    (snap : List CloudRecord) (st : SyncState) (r : SRecord) (i : Nat) :
    getLocal (processLocal dev now snap st r).localStore i =
      if i = r.id then
        match localEffect snap r with
        | none => getLocal st.localStore i
        | some none => none
        | some (some x) => some x
      else getLocal st.localStore i := by
  cases hc : getCloud snap r.id with
  | none =>
      cases hu : uploadRecord dev now r <;>
        simp [processLocal, localEffect, hc, hu]
  | some c =>
      have hcid : c.record.id = r.id := (getCloud_eq_some hc).1
      cases hd : c.deleted with
      | true =>
          simp [processLocal, localEffect, hc, hd]
          by_cases hi : i = r.id
          · subst hi
            simp [getLocal_remove_same]
          · simp [getLocal_remove_other _ _ _ hi, hi]
      | false =>
          by_cases h1 : c.cloudUpdatedAt < r.updatedAt
          · cases hu : uploadRecord dev now r <;>
              cases hdev : c.deviceId != dev <;>
                simp [processLocal, localEffect, hc, hd, h1, hu, hdev,
                  Nat.not_lt.mpr (Nat.le_of_lt h1)]
          · by_cases h2 : r.updatedAt < c.cloudUpdatedAt
            · simp [processLocal, localEffect, hc, hd, h1, h2]
              by_cases hi : i = r.id
              · subst hi
                rw [← hcid]
                simp [getLocal_save_same]
              · rw [getLocal_save_other _ _ _ (by rw [hcid]; exact hi)]
                simp [hi]
            · simp [processLocal, localEffect, hc, hd, h1, h2]

theorem processLocal_cloudStore (dev : String) (now : Nat)
    (snap : List CloudRecord) (st : SyncState) (r : SRecord) (i : Nat) :
    getCloud (processLocal dev now snap st r).cloudStore i =
      if i = r.id then
        match cloudEffect dev now snap r with
        | some c => some c
        | none => getCloud st.cloudStore i
      else getCloud st.cloudStore i := by
  cases hc : getCloud snap r.id with
  | none =>
      cases hu : uploadRecord dev now r with
      | none => simp [processLocal, cloudEffect, hc, hu]
      | some c =>
          have hcid : c.record.id = r.id := by
            rw [(uploadRecord_eq_some hu).1]
          simp only [processLocal, cloudEffect, hc, hu]
          by_cases hi : i = r.id
          · subst hi
            rw [← hcid]
            simp [getCloud_put_same]
          · rw [getCloud_put_other _ _ _ (by rw [hcid]; exact hi)]
            simp [hi]
  | some c =>
      cases hd : c.deleted with
      | true => simp [processLocal, cloudEffect, hc, hd]
      | false =>
          by_cases h1 : c.cloudUpdatedAt < r.updatedAt
          · cases hdev : c.deviceId != dev with
            | false => simp [processLocal, cloudEffect, hc, hd, h1, hdev]
            | true =>
                cases hu : uploadRecord dev now r with
                | none => simp [processLocal, cloudEffect, hc, hd, h1, hdev, hu]
                | some c2 =>
                    have hcid2 : c2.record.id = r.id := by
                      rw [(uploadRecord_eq_some hu).1]
                    simp only [processLocal, cloudEffect, hc, hd, h1, hdev, hu,
                      Bool.false_eq_true, if_false, if_pos h1, eq_self_iff_true,
                      if_true]
                    by_cases hi : i = r.id
                    · subst hi
                      rw [← hcid2]
                      simp [getCloud_put_same]
                    · rw [getCloud_put_other _ _ _ (by rw [hcid2]; exact hi)]
                      simp [hi]
          · by_cases h2 : r.updatedAt < c.cloudUpdatedAt <;>
              simp [processLocal, cloudEffect, hc, hd, h1, h2]

theorem processLocal_res (dev : String) (now : Nat) (snap : List CloudRecord)
    (st : SyncState) (r : SRecord) :
    (processLocal dev now snap st r).res.uploaded
        = st.res.uploaded + (if (cloudEffect dev now snap r).isSome then 1 else 0) ∧
    (processLocal dev now snap st r).res.deleted
        = st.res.deleted + (if tombFlag snap r then 1 else 0) := by
  cases hc : getCloud snap r.id with
  | none =>
      cases hu : uploadRecord dev now r <;>
        simp [processLocal, cloudEffect, tombFlag, hc, hu]
  | some c =>
      cases hd : c.deleted with
      | true => simp [processLocal, cloudEffect, tombFlag, hc, hd]
      | false =>
          by_cases h1 : c.cloudUpdatedAt < r.updatedAt
          · cases hdev : c.deviceId != dev with
            | false => simp [processLocal, cloudEffect, tombFlag, hc, hd, h1, hdev]
            | true =>
                cases hu : uploadRecord dev now r <;>
                  simp [processLocal, cloudEffect, tombFlag, hc, hd, h1, hdev, hu]
          · by_cases h2 : r.updatedAt < c.cloudUpdatedAt <;>
              simp [processLocal, cloudEffect, tombFlag, hc, hd, h1, h2]

theorem processCloudOnly_localStore (l0 : List SRecord) (st : SyncState)
    (c : CloudRecord) (i : Nat) :
    getLocal (processCloudOnly l0 st c).localStore i =
      if hasLocal l0 c.record.id || c.deleted then getLocal st.localStore i
      else if i = c.record.id then some c.record
      else getLocal st.localStore i := by
  cases hh : hasLocal l0 c.record.id with
  | true => simp [processCloudOnly, hh]
  | false =>
      cases hd : c.deleted with
      | true => simp [processCloudOnly, hh, hd]
      | false =>
          simp only [processCloudOnly, hh, hd, Bool.or_self, Bool.false_eq_true,
            if_false]
          by_cases hi : i = c.record.id
          · subst hi
            simp [getLocal_save_same]
          · rw [getLocal_save_other _ _ _ hi]
            simp [hi]

theorem processCloudOnly_cloudStore (l0 : List SRecord) (st : SyncState)
    (c : CloudRecord) :
    (processCloudOnly l0 st c).cloudStore = st.cloudStore := by
  cases hh : hasLocal l0 c.record.id <;> cases hd : c.deleted <;>
    simp [processCloudOnly, hh, hd]

theorem processCloudOnly_res (l0 : List SRecord) (st : SyncState)
    (c : CloudRecord) :
    (processCloudOnly l0 st c).res.uploaded = st.res.uploaded ∧
    (processCloudOnly l0 st c).res.deleted = st.res.deleted := by
  cases hh : hasLocal l0 c.record.id <;> cases hd : c.deleted <;>
    simp [processCloudOnly, hh, hd]

/-- Combinator applying a step-4 local-store effect to a fallback
lookup result. -/
def applyLocalEff (eff : Option (Option SRecord)) (fallback : Option SRecord) :
    Option SRecord :=
  match eff with
  | none => fallback
  | some none => none
  | some (some x) => some x

/-- Combinator applying a step-4 cloud-store effect to a fallback
lookup result. -/
def applyCloudEff (eff : Option CloudRecord) (fallback : Option CloudRecord) :
    Option CloudRecord :=
  match eff with
  | some c => some c
  | none => fallback

theorem fold4_localStore (dev : String) (now : Nat) (snap : List CloudRecord) :
    ∀ (rs : List SRecord) (st : SyncState) (i : Nat),
      (rs.map fun r => r.id).Nodup →
      getLocal (rs.foldl (processLocal dev now snap) st).localStore i =
        match getLocal rs i with
        | some r => applyLocalEff (localEffect snap r) (getLocal st.localStore i)
        | none => getLocal st.localStore i := by
  intro rs
  induction rs with
  | nil => intro st i _; rfl
  | cons r rs ih =>
    intro st i hnd
    rw [List.map_cons, List.nodup_cons] at hnd
    rw [List.foldl_cons]
    by_cases hi : (r.id == i) = true
    · have hri : r.id = i := by simpa using hi
      have hfind : getLocal (r :: rs) i = some r := by
        unfold getLocal getBy
        exact find?_cons_pos _ r rs hi
      have hnone : getLocal rs i = none := by
        unfold getLocal
        apply getBy_eq_none
        intro x hx he
        exact hnd.1 (by rw [hri, ← he]; exact List.mem_map_of_mem _ hx)
      rw [ih (processLocal dev now snap st r) i hnd.2]
      simp only [hfind, hnone]
      rw [processLocal_localStore, if_pos hri.symm]
      cases he : localEffect snap r with
      | none => rfl
      | some o => cases o <;> rfl
    · have hir : ¬ i = r.id := by
        intro he
        exact hi (by simp [he])
      have hfind : getLocal (r :: rs) i = getLocal rs i := by
        unfold getLocal getBy
        exact find?_cons_neg _ r rs (by simpa using hi)
      rw [ih (processLocal dev now snap st r) i hnd.2]
      simp only [hfind]
      have hst : getLocal (processLocal dev now snap st r).localStore i
          = getLocal st.localStore i := by
        rw [processLocal_localStore, if_neg hir]
      cases hf : getLocal rs i with
      | none => simp only [hst]
      | some r2 => simp only [hst]

theorem fold4_cloudStore (dev : String) (now : Nat) (snap : List CloudRecord) :
    ∀ (rs : List SRecord) (st : SyncState) (i : Nat),
      (rs.map fun r => r.id).Nodup →
      getCloud (rs.foldl (processLocal dev now snap) st).cloudStore i =
        match getLocal rs i with
        | some r => applyCloudEff (cloudEffect dev now snap r) (getCloud st.cloudStore i)
        | none => getCloud st.cloudStore i := by
  intro rs
  induction rs with
  | nil => intro st i _; rfl
  | cons r rs ih =>
    intro st i hnd
    rw [List.map_cons, List.nodup_cons] at hnd
    rw [List.foldl_cons]
    by_cases hi : (r.id == i) = true
    · have hri : r.id = i := by simpa using hi
      have hfind : getLocal (r :: rs) i = some r := by
        unfold getLocal getBy
        exact find?_cons_pos _ r rs hi
      have hnone : getLocal rs i = none := by
        unfold getLocal
        apply getBy_eq_none
        intro x hx he
        exact hnd.1 (by rw [hri, ← he]; exact List.mem_map_of_mem _ hx)
      rw [ih (processLocal dev now snap st r) i hnd.2]
      simp only [hfind, hnone]
      rw [processLocal_cloudStore, if_pos hri.symm]
      cases he : cloudEffect dev now snap r <;> rfl
    · have hir : ¬ i = r.id := by
        intro he
        exact hi (by simp [he])
      have hfind : getLocal (r :: rs) i = getLocal rs i := by
        unfold getLocal getBy
        exact find?_cons_neg _ r rs (by simpa using hi)
      rw [ih (processLocal dev now snap st r) i hnd.2]
      simp only [hfind]
      have hst : getCloud (processLocal dev now snap st r).cloudStore i
          = getCloud st.cloudStore i := by
        rw [processLocal_cloudStore, if_neg hir]
      cases hf : getLocal rs i with
      | none => simp only [hst]
      | some r2 => simp only [hst]

theorem fold5_localStore (l0 : List SRecord) :
    ∀ (cs : List CloudRecord) (st : SyncState) (i : Nat),
      (cs.map fun c => c.record.id).Nodup →
      getLocal (cs.foldl (processCloudOnly l0) st).localStore i =
        match getCloud cs i with
        | some c =>
            if hasLocal l0 c.record.id || c.deleted then getLocal st.localStore i
            else some c.record
        | none => getLocal st.localStore i := by
  intro cs
  induction cs with
  | nil => intro st i _; rfl
  | cons c cs ih =>
    intro st i hnd
    rw [List.map_cons, List.nodup_cons] at hnd
    rw [List.foldl_cons]
    by_cases hi : (c.record.id == i) = true
    · have hci : c.record.id = i := by simpa using hi
      have hfind : getCloud (c :: cs) i = some c := by
        unfold getCloud getBy
        exact find?_cons_pos _ c cs hi
      have hnone : getCloud cs i = none := by
        unfold getCloud
        apply getBy_eq_none
        intro x hx he
        exact hnd.1 (by rw [hci, ← he]; exact List.mem_map_of_mem _ hx)
      rw [ih (processCloudOnly l0 st c) i hnd.2]
      simp only [hfind, hnone]
      rw [processCloudOnly_localStore]
      cases hcond : (hasLocal l0 c.record.id || c.deleted) <;> simp [hcond, hci]
    · have hir : ¬ i = c.record.id := by
        intro he
        exact hi (by simp [he])
      have hfind : getCloud (c :: cs) i = getCloud cs i := by
        unfold getCloud getBy
        exact find?_cons_neg _ c cs (by simpa using hi)
      rw [ih (processCloudOnly l0 st c) i hnd.2]
      simp only [hfind]
      have hst : getLocal (processCloudOnly l0 st c).localStore i
          = getLocal st.localStore i := by
        rw [processCloudOnly_localStore]
        cases hcond : (hasLocal l0 c.record.id || c.deleted) with
        | true => simp
        | false => simp [hir]
      cases hf : getCloud cs i with
      | none => simp only [hst]
      | some c2 => simp only [hst]

theorem fold5_cloudStore (l0 : List SRecord) :
    ∀ (cs : List CloudRecord) (st : SyncState),
      (cs.foldl (processCloudOnly l0) st).cloudStore = st.cloudStore := by
  intro cs
  induction cs with
  | nil => intro st; rfl
  | cons c cs ih =>
    intro st
    rw [List.foldl_cons, ih, processCloudOnly_cloudStore]

/-- Well-formedness of a sync state: both stores hold at most one entry
per id. -/
def storesNodup (st : SyncState) : Prop :=
  (st.localStore.map fun r => r.id).Nodup ∧
  (st.cloudStore.map fun c => c.record.id).Nodup

theorem processLocal_storesNodup (dev : String) (now : Nat)
    (snap : List CloudRecord) (st : SyncState) (r : SRecord)
    (h : storesNodup st) : storesNodup (processLocal dev now snap st r) := by
  obtain ⟨hl, hc0⟩ := h
  cases hc : getCloud snap r.id with
  | none =>
      cases hu : uploadRecord dev now r with
      | none => simpa [processLocal, hc, hu, storesNodup] using ⟨hl, hc0⟩
      | some c =>
          simp only [processLocal, hc, hu, storesNodup]
          exact ⟨hl, map_key_upsert_nodup _ _ _ hc0⟩
  | some c =>
      cases hd : c.deleted with
      | true =>
          simp only [processLocal, hc, hd, if_pos rfl, storesNodup]
          exact ⟨map_key_filter_nodup _ _ _ hl, hc0⟩
      | false =>
          by_cases h1 : c.cloudUpdatedAt < r.updatedAt
          · cases hdev : c.deviceId != dev with
            | false => simpa [processLocal, hc, hd, h1, hdev, storesNodup] using ⟨hl, hc0⟩
            | true =>
                cases hu : uploadRecord dev now r with
                | none => simpa [processLocal, hc, hd, h1, hdev, hu, storesNodup] using ⟨hl, hc0⟩
                | some c2 =>
                    simp only [processLocal, hc, hd, h1, hdev, hu,
                      Bool.false_eq_true, if_false, if_pos h1, eq_self_iff_true,
                      if_true, storesNodup]
                    exact ⟨hl, map_key_upsert_nodup _ _ _ hc0⟩
          · by_cases h2 : r.updatedAt < c.cloudUpdatedAt
            · simp only [processLocal, hc, hd, Bool.false_eq_true, if_false,
                if_neg h1, if_pos h2, storesNodup]
              exact ⟨map_key_upsert_nodup _ _ _ hl, hc0⟩
            · simpa [processLocal, hc, hd, h1, h2, storesNodup] using ⟨hl, hc0⟩

theorem processCloudOnly_storesNodup (l0 : List SRecord) (st : SyncState)
    (c : CloudRecord) (h : storesNodup st) :
    storesNodup (processCloudOnly l0 st c) := by
  obtain ⟨hl, hc0⟩ := h
  cases hh : hasLocal l0 c.record.id with
  | true => simpa [processCloudOnly, hh, storesNodup] using ⟨hl, hc0⟩
  | false =>
      cases hd : c.deleted with
      | true => simpa [processCloudOnly, hh, hd, storesNodup] using ⟨hl, hc0⟩
      | false =>
          simp only [processCloudOnly, hh, hd, Bool.false_eq_true, if_false,
            storesNodup]
          exact ⟨map_key_upsert_nodup _ _ _ hl, hc0⟩

theorem syncToCloud_storesNodup (dev : String) (now : Nat)
    (l0 : List SRecord) (c0 : List CloudRecord)
    (hl : (l0.map fun r => r.id).Nodup)
    (hc : (c0.map fun c => c.record.id).Nodup) :
    storesNodup (syncToCloud dev now l0 c0) := by
  unfold syncToCloud
  apply foldl_preserve
  · apply foldl_preserve
    · exact ⟨hl, hc⟩
    · intro s x _ hs
      exact processLocal_storesNodup _ _ _ s x hs
  · intro s x _ hs
    exact processCloudOnly_storesNodup _ s x hs

/-! ## Authentication path lemmas -/

/-- Reduction of `authenticate` to its core when no unexpired lockout is
persisted. -/
theorem authenticate_eq_authCore (meta : MetaConfig) (memFailed : Nat)
    (memLock : Option Nat) (memKey : Option Bytes) (pin : String) (now : Nat)
    (iv : Bytes) (hguard : ∀ lt, meta.lockUntil = some lt → lt ≤ now) :
    authenticate (some meta) memFailed memLock memKey pin now iv
      = authCore meta memFailed memLock memKey pin now iv := by
  cases hl : meta.lockUntil with
  | none => simp [authenticate, hl]
  | some lt =>
      have hnl : ¬ now < lt := Nat.not_lt.mpr (hguard lt hl)
      simp [authenticate, hl, hnl]

/-- Failure-path characterisation of `authCore` for a pin whose derived
key does not unwrap the master key. -/
theorem authCore_wrong_pin (meta : MetaConfig) (memFailed : Nat)
    (memLock : Option Nat) (memKey : Option Bytes) (pin : String) (now : Nat)
    (iv : Bytes)
    (hwrong : unwrapMasterKey meta.encryptedMasterKey meta.masterIv
        (derivePinKey pin meta.kdfSalt meta.kdfIterations) = none) :
    authCore meta memFailed memLock memKey pin now iv =
      (match (if 5 ≤ memFailed + 1 then some (now + 21600 * 1000)
              else if 1 < memFailed + 1 then
                some (now + LOCKOUT_SCHEDULE.getD memFailed 0 * 1000)
              else none) with
       | some l =>
          { ok := false
            meta := some { meta with lockUntil := some l, lastFailedTimestamp := some now }
            memFailedAttempts := memFailed + 1
            memLockUntil := some l
            masterKey := memKey
            pbkdf2Calls := 1
            metaWrites := 2 }
       | none =>
          { ok := false
            meta := some { meta with lastFailedTimestamp := some now }
            memFailedAttempts := memFailed + 1
            memLockUntil := memLock
            masterKey := memKey
            pbkdf2Calls := 1
            metaWrites := 1 }) := by
  simp only [authCore, hwrong]
  have hlen : LOCKOUT_SCHEDULE.length = 5 := by rfl
  rw [hlen]
  rw [show LOCKOUT_SCHEDULE.getD (5 - 1) 0 = 21600 from rfl,
    show memFailed + 1 - 1 = memFailed from rfl]

/-- Success-path characterisation of `authCore`. -/
theorem authCore_right_pin (meta : MetaConfig) (memFailed : Nat)
    (memLock : Option Nat) (memKey : Option Bytes) (pin : String) (now : Nat)
    (iv : Bytes) (mk : Bytes)
    (hok : unwrapMasterKey meta.encryptedMasterKey meta.masterIv
        (derivePinKey pin meta.kdfSalt meta.kdfIterations) = some mk) :
    authCore meta memFailed memLock memKey pin now iv =
      { ok := true
        meta := some { meta with
          failedAttempts := (encryptData "0" mk iv).1
          lockUntil := none
          lastFailedTimestamp := none }
        memFailedAttempts := 0
        memLockUntil := none
        masterKey := some mk
        pbkdf2Calls := 1
        metaWrites := 1 } := by
  simp [authCore, hok]

/-! ## Claim theorems: authentication -/

/-- C8: for every pin, salt, iteration count, master key and wrapping
IV, unwrapping the result of `wrapMasterKey` under the same
`derivePinKey`-derived key returns exactly the original raw master-key
bytes. -/
theorem c8_wrap_unwrap_roundtrip (pin : String) (salt : Bytes)
    (iterations : Nat) (mk iv : Bytes) :
    unwrapMasterKey
      (wrapMasterKey mk (derivePinKey pin salt iterations) iv).1
      (wrapMasterKey mk (derivePinKey pin salt iterations) iv).2
      (derivePinKey pin salt iterations) = some mk := by
  unfold wrapMasterKey unwrapMasterKey
  exact aesGcm_roundtrip _ _ _

/-- C6: an `authenticate` call made while the persisted `lockUntil` lies
in the future is rejected before any PBKDF2 derivation (`pbkdf2Calls = 0`),
returns `false`, consumes no attempt (`memFailedAttempts` unchanged) and
performs no persistence write (`metaWrites = 0`, persisted meta
unchanged); only the in-memory `lockUntil` mirror is refreshed. -/
theorem c6_lockout_rejected_before_pbkdf2 (meta : MetaConfig) (lt : Nat)
    (memFailed : Nat) (memLock : Option Nat) (memKey : Option Bytes)
    (pin : String) (now : Nat) (iv : Bytes)
    (hl : meta.lockUntil = some lt) (hfut : now < lt) :
    authenticate (some meta) memFailed memLock memKey pin now iv =
      { ok := false
        meta := some meta
        memFailedAttempts := memFailed
        memLockUntil := some lt
        masterKey := memKey
        pbkdf2Calls := 0
        metaWrites := 0 } := by
  simp [authenticate, hl, hfut]

/-- C6 witness: a vault locked until instant 1000, probed at instant 5. -/
theorem c6_witness :
    authenticate
      (some { encryptedMasterKey := [], masterIv := [], kdfSalt := [],
              kdfIterations := 1000, failedAttempts := [],
              autoLockTimeout := 120, lockUntil := some 1000 })
      3 none none "1234" 5 [] =
      { ok := false
        meta := some { encryptedMasterKey := [], masterIv := [], kdfSalt := [],
                       kdfIterations := 1000, failedAttempts := [],
                       autoLockTimeout := 120, lockUntil := some 1000 }
        memFailedAttempts := 3
        memLockUntil := some 1000
        masterKey := none
        pbkdf2Calls := 0
        metaWrites := 0 } :=
  c6_lockout_rejected_before_pbkdf2 _ 1000 3 none none "1234" 5 [] rfl (by decide)

/-- C7: a successful `authenticate` call (the wrapped master key
unwraps) returns `true` holding the unwrapped key in memory, resets the
in-memory `failedAttempts` to 0, clears the in-memory `lockUntil`, and
persists a VaultMeta whose `lockUntil` and `lastFailedTimestamp` are
cleared and whose `failedAttempts` field is a fresh encryption of the
string `"0"` under the master key (which decrypts back to `"0"`). -/
theorem c7_success_resets (meta : MetaConfig) (mk : Bytes)
    (memFailed : Nat) (memLock : Option Nat) (memKey : Option Bytes)
    (pin : String) (now : Nat) (iv : Bytes)
    (hguard : ∀ lt, meta.lockUntil = some lt → lt ≤ now)
    (hok : unwrapMasterKey meta.encryptedMasterKey meta.masterIv
        (derivePinKey pin meta.kdfSalt meta.kdfIterations) = some mk) :
    authenticate (some meta) memFailed memLock memKey pin now iv =
      { ok := true
        meta := some { meta with
          failedAttempts := (encryptData "0" mk iv).1
          lockUntil := none
          lastFailedTimestamp := none }
        memFailedAttempts := 0
        memLockUntil := none
        masterKey := some mk
        pbkdf2Calls := 1
        metaWrites := 1 } ∧
    decryptData (encryptData "0" mk iv).1 iv mk = some "0" := by
  constructor
  · rw [authenticate_eq_authCore _ _ _ _ _ _ _ hguard]
    exact authCore_right_pin _ _ _ _ _ _ _ _ hok
  · exact encryptData_roundtrip "0" mk iv

/-- C7 witness: a concrete vault set up with pin `"1234"`, unlocked with
the same pin. -/
theorem c7_witness :
    (authenticate
        (some (setupPin "1234" (List.range 32) (List.range 16)
          (List.range 12) (List.range 12)))
        4 none none "1234" 77 (List.range 12)).ok = true ∧
    (authenticate
        (some (setupPin "1234" (List.range 32) (List.range 16)
          (List.range 12) (List.range 12)))
        4 none none "1234" 77 (List.range 12)).memFailedAttempts = 0 ∧
    (authenticate
        (some (setupPin "1234" (List.range 32) (List.range 16)
          (List.range 12) (List.range 12)))
        4 none none "1234" 77 (List.range 12)).masterKey = some (List.range 32) := by
  have h := c7_success_resets
    (setupPin "1234" (List.range 32) (List.range 16) (List.range 12) (List.range 12))
    (List.range 32) 4 none none "1234" 77 (List.range 12)
    (by intro lt hlt; simp [setupPin] at hlt)
    (by decide)
  rw [h.1]
  exact ⟨rfl, rfl, rfl⟩

/-- C9: a failed `authenticate` call leaves the persisted
`failedAttempts` ciphertext — and every other key-material field of the
VaultMeta — unchanged, writing only `lastFailedTimestamp` (and possibly
`lockUntil`); together with `setupPin` storing an encryption of `"0"` as
the counter, the counter ciphertext written at setup is never updated by
a failure. -/
theorem c9_failed_attempts_ciphertext_frame (meta : MetaConfig)
    (memFailed : Nat) (memLock : Option Nat) (memKey : Option Bytes)
    (pin : String) (now : Nat) (iv : Bytes)
    (hguard : ∀ lt, meta.lockUntil = some lt → lt ≤ now)
    (hwrong : unwrapMasterKey meta.encryptedMasterKey meta.masterIv
        (derivePinKey pin meta.kdfSalt meta.kdfIterations) = none) :
    ((authenticate (some meta) memFailed memLock memKey pin now iv).meta.map
        fun m => m.failedAttempts) = some meta.failedAttempts ∧
    ((authenticate (some meta) memFailed memLock memKey pin now iv).meta.map
        fun m => m.encryptedMasterKey) = some meta.encryptedMasterKey ∧
    ((authenticate (some meta) memFailed memLock memKey pin now iv).meta.map
        fun m => m.masterIv) = some meta.masterIv ∧
    ((authenticate (some meta) memFailed memLock memKey pin now iv).meta.map
        fun m => m.kdfSalt) = some meta.kdfSalt ∧
    ((authenticate (some meta) memFailed memLock memKey pin now iv).meta.map
        fun m => m.kdfIterations) = some meta.kdfIterations ∧
    ((authenticate (some meta) memFailed memLock memKey pin now iv).meta.map
        fun m => m.autoLockTimeout) = some meta.autoLockTimeout ∧
    ((authenticate (some meta) memFailed memLock memKey pin now iv).meta.map
        fun m => m.lastFailedTimestamp) = some (some now) ∧
    (∀ (pin2 : String) (mk salt wrapIv faIv : Bytes),
        (setupPin pin2 mk salt wrapIv faIv).failedAttempts
          = (encryptData "0" mk faIv).1) := by
  rw [authenticate_eq_authCore _ _ _ _ _ _ _ hguard,
    authCore_wrong_pin _ _ _ _ _ _ _ hwrong]
  by_cases h5 : 5 ≤ memFailed + 1
  · simp [h5, setupPin]
  · by_cases h2 : 1 < memFailed + 1
    · simp [h5, h2, setupPin]
    · simp [h5, h2, setupPin]

/-- C9 witness: third consecutive failure against a vault set up with
pin `"1234"`, probed with wrong pin `"9999"`. -/
theorem c9_witness :
    ((authenticate
        (some (setupPin "1234" (List.range 32) (List.range 16)
          (List.range 12) (List.range 12)))
        2 none none "9999" 77 []).meta.map fun m => m.failedAttempts)
      = some (setupPin "1234" (List.range 32) (List.range 16)
          (List.range 12) (List.range 12)).failedAttempts :=
  (c9_failed_attempts_ciphertext_frame
    (setupPin "1234" (List.range 32) (List.range 16) (List.range 12) (List.range 12))
    2 none none "9999" 77 []
    (by intro lt hlt; simp [setupPin] at hlt)
    (by decide)).1

/-- C3 counterexample: the claim says a call on a vault that is not set
up throws a fatal `ConfigurationError` rather than returning `false`.
The source wraps the whole body in `try/catch` and its missing-meta
branch is `if (!meta) return false`, so the call completes normally with
the boolean `false` and no effect at all — there is no error channel. -/
theorem c3_counterexample_not_setup_returns_false :
    authenticate none 0 none none "1234" 0 [] =
      { ok := false
        meta := none
        memFailedAttempts := 0
        memLockUntil := none
        masterKey := none
        pbkdf2Calls := 0
        metaWrites := 0 } := rfl

/-- C3 (amended): `authenticate` never throws at all.  A wrong PIN
returns `false` and mutates the lockout state (the attempt counter is
incremented); a call on a vault that is not set up also returns `false`
with no side effect, instead of throwing a `ConfigurationError`; every
other failure is likewise caught and converted to `false`. -/
theorem c3_authenticate_never_throws :
    (∀ (memFailed : Nat) (memLock : Option Nat) (memKey : Option Bytes)
        (pin : String) (now : Nat) (iv : Bytes),
      authenticate none memFailed memLock memKey pin now iv =
        { ok := false
          meta := none
          memFailedAttempts := memFailed
          memLockUntil := memLock
          masterKey := memKey
          pbkdf2Calls := 0
          metaWrites := 0 }) ∧
    (∀ (meta : MetaConfig) (memFailed : Nat) (memLock : Option Nat)
        (memKey : Option Bytes) (pin : String) (now : Nat) (iv : Bytes),
      (∀ lt, meta.lockUntil = some lt → lt ≤ now) →
      unwrapMasterKey meta.encryptedMasterKey meta.masterIv
          (derivePinKey pin meta.kdfSalt meta.kdfIterations) = none →
      (authenticate (some meta) memFailed memLock memKey pin now iv).ok = false ∧
      (authenticate (some meta) memFailed memLock memKey pin now iv).memFailedAttempts
        = memFailed + 1) := by
  constructor
  · intro memFailed memLock memKey pin now iv
    rfl
  · intro meta memFailed memLock memKey pin now iv hguard hwrong
    rw [authenticate_eq_authCore _ _ _ _ _ _ _ hguard,
      authCore_wrong_pin _ _ _ _ _ _ _ hwrong]
    by_cases h5 : 5 ≤ memFailed + 1
    · simp [h5]
    · by_cases h2 : 1 < memFailed + 1
      · simp [h5, h2]
      · simp [h5, h2]

/-- C3 witness: the wrong-pin conjunct applied to a concrete vault and
wrong pin, and the missing-meta conjunct applied at concrete inputs. -/
theorem c3_witness :
    (authenticate none 7 none none "0000" 3 [] =
      { ok := false
        meta := none
        memFailedAttempts := 7
        memLockUntil := none
        masterKey := none
        pbkdf2Calls := 0
        metaWrites := 0 }) ∧
    (authenticate
        (some (setupPin "1234" (List.range 32) (List.range 16)
          (List.range 12) (List.range 12)))
        0 none none "9999" 77 []).ok = false := by
  constructor
  · exact c3_authenticate_never_throws.1 7 none none "0000" 3 []
  · exact (c3_authenticate_never_throws.2
      (setupPin "1234" (List.range 32) (List.range 16) (List.range 12) (List.range 12))
      0 none none "9999" 77 []
      (by intro lt hlt; simp [setupPin] at hlt)
      (by decide)).1

/-- C2: the spec claims the n-th consecutive failed `authenticate` call
increments `failedAttempts` to n and (for n ≥ 2) persists
`lockUntil = now + schedule[n-1]` (30 s for the 2nd failure, 600 s for
the 3rd, ...).  In the source the callback is memoized with
`useCallback(..., [])`, so the `failedAttempts` state variable read
inside the closure keeps the initial render's value 0 for the lifetime
of the mount; every failure computes `newAttempts = 0 + 1 = 1`, which is
the no-lockout branch of the schedule.  This theorem evaluates the code
at the failing input: two consecutive wrong-PIN calls both leave the
attempt counter at 1, and the persisted VaultMeta after the second
failure carries no `lockUntil` at all, where the claim demands
failedAttempts = 2 and lockUntil = now + 30 s. -/
theorem c2_lockout_never_escalates_stale_closure (meta : MetaConfig)
    (pin : String) (t1 t2 : Nat) (iv1 iv2 : Bytes) (memKey : Option Bytes)
    (hnl : meta.lockUntil = none)
    (hwrong : unwrapMasterKey meta.encryptedMasterKey meta.masterIv
        (derivePinKey pin meta.kdfSalt meta.kdfIterations) = none) :
    (authenticateApp (some meta) none memKey pin t1 iv1).memFailedAttempts = 1 ∧
    (authenticateApp (some meta) none memKey pin t1 iv1).meta
      = some { meta with lastFailedTimestamp := some t1 } ∧
    (authenticateApp (some meta) none memKey pin t1 iv1).memLockUntil = none ∧
    (authenticateApp (some { meta with lastFailedTimestamp := some t1 })
        none memKey pin t2 iv2).memFailedAttempts = 1 ∧
    (authenticateApp (some { meta with lastFailedTimestamp := some t1 })
        none memKey pin t2 iv2).meta
      = some { meta with lastFailedTimestamp := some t2 } := by
  have hguard1 : ∀ lt, meta.lockUntil = some lt → lt ≤ t1 := by
    intro lt hlt
    rw [hnl] at hlt
    cases hlt
  have hguard2 : ∀ lt,
      ({ meta with lastFailedTimestamp := some t1 } : MetaConfig).lockUntil
        = some lt → lt ≤ t2 := by
    intro lt hlt
    simp only [hnl] at hlt
    cases hlt
  have h1 : authenticateApp (some meta) none memKey pin t1 iv1
      = authCore meta 0 none memKey pin t1 iv1 :=
    authenticate_eq_authCore meta 0 none memKey pin t1 iv1 hguard1
  have h2 : authenticateApp (some { meta with lastFailedTimestamp := some t1 })
        none memKey pin t2 iv2
      = authCore { meta with lastFailedTimestamp := some t1 } 0 none memKey pin t2 iv2 :=
    authenticate_eq_authCore _ 0 none memKey pin t2 iv2 hguard2
  have hwrong2 : unwrapMasterKey
      ({ meta with lastFailedTimestamp := some t1 } : MetaConfig).encryptedMasterKey
      ({ meta with lastFailedTimestamp := some t1 } : MetaConfig).masterIv
      (derivePinKey pin
        ({ meta with lastFailedTimestamp := some t1 } : MetaConfig).kdfSalt
        ({ meta with lastFailedTimestamp := some t1 } : MetaConfig).kdfIterations)
      = none := hwrong
  rw [h1, h2, authCore_wrong_pin _ _ _ _ _ _ _ hwrong,
    authCore_wrong_pin _ _ _ _ _ _ _ hwrong2]
  refine ⟨rfl, rfl, rfl, rfl, rfl⟩

/-- C2 witness: a concrete set-up vault probed twice with a wrong pin. -/
theorem c2_witness :
    (authenticateApp
        (some (setupPin "1234" (List.range 32) (List.range 16)
          (List.range 12) (List.range 12)))
        none none "9999" 10 []).memFailedAttempts = 1 ∧
    (authenticateApp
        (some { setupPin "1234" (List.range 32) (List.range 16)
            (List.range 12) (List.range 12) with lastFailedTimestamp := some 10 })
        none none "9999" 20 []).meta
      = some { setupPin "1234" (List.range 32) (List.range 16)
            (List.range 12) (List.range 12) with lastFailedTimestamp := some 20 } := by
  have h := c2_lockout_never_escalates_stale_closure
    (setupPin "1234" (List.range 32) (List.range 16) (List.range 12) (List.range 12))
    "9999" 10 20 [] [] none
    (by simp [setupPin]) (by decide)
  exact ⟨h.1, h.2.2.2.2⟩

/-! ## Whole-run characterisations of `syncToCloud` -/

theorem syncToCloud_def (dev : String) (now : Nat) (l0 : List SRecord)
    (c0 : List CloudRecord) :
    syncToCloud dev now l0 c0 =
      (downloadAllRecords now c0).foldl (processCloudOnly l0)
        (l0.foldl (processLocal dev now (downloadAllRecords now c0))
          ⟨l0, c0, ⟨0, 0, 0, 0, []⟩⟩) := rfl

theorem snap_nodup (now : Nat) (c0 : List CloudRecord)
    (hndc : (c0.map fun c => c.record.id).Nodup) :
    ((downloadAllRecords now c0).map fun c => c.record.id).Nodup := by
  unfold downloadAllRecords
  exact map_key_filter_nodup _ _ _ hndc

theorem getCloud_downloadAll (now : Nat) (c0 : List CloudRecord) (i : Nat)
    (hndc : (c0.map fun c => c.record.id).Nodup) :
    getCloud (downloadAllRecords now c0) i =
      filterGet (keepPred now) (getCloud c0 i) := by
  unfold downloadAllRecords getCloud
  exact getBy_filter_char (fun c : CloudRecord => c.record.id) (keepPred now) c0 i hndc

theorem getLocal_of_hasLocal_false (l : List SRecord) (i : Nat)
    (h : hasLocal l i = false) : getLocal l i = none := by
  unfold getLocal getBy
  exact any_false_find?_none _ _ h

theorem hasLocal_of_mem (l : List SRecord) (r : SRecord) (h : r ∈ l) :
    hasLocal l r.id = true := by
  unfold hasLocal
  rw [List.any_eq_true]
  exact ⟨r, h, by simp⟩

/-- Fallback value of the step-4 loop for the row at id `i`. -/
def step4LocalAt (dev : String) (now : Nat) (l0 : List SRecord)
    (c0 : List CloudRecord) (i : Nat) : Option SRecord :=
  match getLocal l0 i with
  | some r =>
      applyLocalEff (localEffect (downloadAllRecords now c0) r) (getLocal l0 i)
  | none => getLocal l0 i

theorem syncToCloud_localStore_char (dev : String) (now : Nat)
    (l0 : List SRecord) (c0 : List CloudRecord) (i : Nat)
    (hndl : (l0.map fun r => r.id).Nodup)
    (hndc : (c0.map fun c => c.record.id).Nodup) :
    getLocal (syncToCloud dev now l0 c0).localStore i =
      match getCloud (downloadAllRecords now c0) i with
      | some c =>
          if hasLocal l0 c.record.id || c.deleted then step4LocalAt dev now l0 c0 i
          else some c.record
      | none => step4LocalAt dev now l0 c0 i := by
  rw [syncToCloud_def,
    fold5_localStore l0 (downloadAllRecords now c0) _ i (snap_nodup now c0 hndc),
    fold4_localStore dev now (downloadAllRecords now c0) l0 _ i hndl]
  rfl

theorem syncToCloud_cloudStore_char (dev : String) (now : Nat)
    (l0 : List SRecord) (c0 : List CloudRecord) (i : Nat)
    (hndl : (l0.map fun r => r.id).Nodup) :
    getCloud (syncToCloud dev now l0 c0).cloudStore i =
      match getLocal l0 i with
      | some r =>
          applyCloudEff (cloudEffect dev now (downloadAllRecords now c0) r)
            (getCloud c0 i)
      | none => getCloud c0 i := by
  rw [syncToCloud_def, fold5_cloudStore,
    fold4_cloudStore dev now (downloadAllRecords now c0) l0 _ i hndl]

theorem syncToCloud_localStore_nodup (dev : String) (now : Nat)
    (l0 : List SRecord) (c0 : List CloudRecord)
    (hndl : (l0.map fun r => r.id).Nodup)
    (hndc : (c0.map fun c => c.record.id).Nodup) :
    ((syncToCloud dev now l0 c0).localStore.map fun r => r.id).Nodup :=
  (syncToCloud_storesNodup dev now l0 c0 hndl hndc).1

theorem syncToCloud_cloudStore_nodup (dev : String) (now : Nat)
    (l0 : List SRecord) (c0 : List CloudRecord)
    (hndl : (l0.map fun r => r.id).Nodup)
    (hndc : (c0.map fun c => c.record.id).Nodup) :
    ((syncToCloud dev now l0 c0).cloudStore.map fun c => c.record.id).Nodup :=
  (syncToCloud_storesNodup dev now l0 c0 hndl hndc).2

/-- Per-record condition under which a `syncToCloud` run counts neither
an upload nor a deletion. -/
theorem syncToCloud_counters_zero (dev : String) (now : Nat)
    (l0 : List SRecord) (c0 : List CloudRecord)
    (h : ∀ r ∈ l0, cloudEffect dev now (downloadAllRecords now c0) r = none ∧
        tombFlag (downloadAllRecords now c0) r = false) :
    (syncToCloud dev now l0 c0).res.uploaded = 0 ∧
    (syncToCloud dev now l0 c0).res.deleted = 0 := by
  rw [syncToCloud_def]
  apply foldl_preserve _
    (fun st : SyncState => st.res.uploaded = 0 ∧ st.res.deleted = 0)
  · apply foldl_preserve _
      (fun st : SyncState => st.res.uploaded = 0 ∧ st.res.deleted = 0)
    · exact ⟨rfl, rfl⟩
    · intro s x hx hs
      obtain ⟨he, ht⟩ := h x hx
      have hres := processLocal_res dev now (downloadAllRecords now c0) s x
      refine ⟨?_, ?_⟩
      · rw [hres.1, he]
        simpa using hs.1
      · rw [hres.2, ht]
        simpa using hs.2
  · intro s x _ hs
    have hres := processCloudOnly_res l0 s x
    exact ⟨hres.1 ▸ hs.1, hres.2 ▸ hs.2⟩

theorem syncToCloud_deleted_zero (dev : String) (now : Nat)
    (l0 : List SRecord) (c0 : List CloudRecord)
    (h : ∀ r ∈ l0, tombFlag (downloadAllRecords now c0) r = false) :
    (syncToCloud dev now l0 c0).res.deleted = 0 := by
  rw [syncToCloud_def]
  apply foldl_preserve _ (fun st : SyncState => st.res.deleted = 0)
  · apply foldl_preserve _ (fun st : SyncState => st.res.deleted = 0)
    · rfl
    · intro s x hx hs
      rw [(processLocal_res dev now (downloadAllRecords now c0) s x).2, h x hx]
      simpa using hs
  · intro s x _ hs
    rw [(processCloudOnly_res l0 s x).2]
    exact hs

/-! ## Claim theorems: sync engine -/

/-- C4: for a local record whose id is present in the cloud map as a
non-tombstoned `CloudRecord`, the step-4 body of `syncToCloud` compares
`local.updatedAt` with `cloud.cloudUpdatedAt`: if local is strictly
newer and the cloud copy came from another device, it uploads the local
record (the document becomes the local record tagged with `now` and this
device, the local store untouched — never downgraded); if local is
strictly newer but the cloud copy is this device's own, nothing happens;
if cloud is strictly newer, the local row is overwritten with the cloud
copy; if the timestamps are equal, nothing changes. -/
theorem c4_last_write_wins_compare (dev : String) (now : Nat)
    (snap : List CloudRecord) (st : SyncState) (r : SRecord) (c : CloudRecord)
    (hc : getCloud snap r.id = some c) (hlive : c.deleted = false) :
    (c.cloudUpdatedAt < r.updatedAt → c.deviceId ≠ dev → validRecord r = true →
      processLocal dev now snap st r =
        { st with cloudStore := putCloud st.cloudStore ⟨r, now, dev, false⟩,
                  res := { st.res with uploaded := st.res.uploaded + 1 } }) ∧
    (c.cloudUpdatedAt < r.updatedAt → c.deviceId = dev →
      processLocal dev now snap st r = st) ∧
    (r.updatedAt < c.cloudUpdatedAt →
      processLocal dev now snap st r =
        { st with localStore := saveLocal st.localStore c.record,
                  res := { st.res with downloaded := st.res.downloaded + 1 } }) ∧
    (r.updatedAt = c.cloudUpdatedAt → processLocal dev now snap st r = st) := by
  refine ⟨?_, ?_, ?_, ?_⟩
  · intro h1 hdev hv
    simp [processLocal, hc, hlive, h1, Nat.lt_asymm h1, uploadRecord, hv,
      bne_iff_ne, hdev]
  · intro h1 hdev
    simp [processLocal, hc, hlive, h1, hdev]
  · intro h2
    simp [processLocal, hc, hlive, h2, Nat.lt_asymm h2]
  · intro he
    simp [processLocal, hc, hlive, he]

/-- C4 witness: a local record updated at 10 whose cloud copy from
device `"B"` carries `cloudUpdatedAt = 7`: the upload branch fires. -/
theorem c4_witness :
    processLocal "A" 100 [⟨⟨1, "note", "old", 5, 7⟩, 7, "B", false⟩]
      ⟨[⟨1, "note", "new", 5, 10⟩], [⟨⟨1, "note", "old", 5, 7⟩, 7, "B", false⟩],
        ⟨0, 0, 0, 0, []⟩⟩
      ⟨1, "note", "new", 5, 10⟩ =
      { localStore := [⟨1, "note", "new", 5, 10⟩]
        cloudStore := putCloud [⟨⟨1, "note", "old", 5, 7⟩, 7, "B", false⟩]
          ⟨⟨1, "note", "new", 5, 10⟩, 100, "A", false⟩
        res := ⟨1, 0, 0, 0, []⟩ } := by
  have h := (c4_last_write_wins_compare "A" 100
    [⟨⟨1, "note", "old", 5, 7⟩, 7, "B", false⟩]
    ⟨[⟨1, "note", "new", 5, 10⟩], [⟨⟨1, "note", "old", 5, 7⟩, 7, "B", false⟩],
      ⟨0, 0, 0, 0, []⟩⟩
    ⟨1, "note", "new", 5, 10⟩ ⟨⟨1, "note", "old", 5, 7⟩, 7, "B", false⟩
    (by decide) rfl).1 (by decide) (by decide) (by decide)
  rw [h]

/-- C5: deleting a record removes the local row immediately and
merge-updates the remote document to a tombstone
`{id, deleted := true, cloudUpdatedAt := now, deviceId}`; in any later
`syncToCloud`, a local record whose snapshot counterpart is tombstoned
is removed locally and counted in the deleted tally, cloud-only
tombstones are never downloaded, and a second, already-synced device
removes its copy on its next sync (concrete end-to-end run). -/
theorem c5_tombstone_propagation :
    (∀ (dev : String) (now : Nat) (localSt : List SRecord)
        (cloud : List CloudRecord) (recordId : Nat),
      getLocal (deleteRecordFlow dev now localSt cloud recordId).1 recordId
        = none) ∧
    (∀ (dev : String) (now : Nat) (localSt : List SRecord)
        (cloud : List CloudRecord) (recordId : Nat),
      ((getCloud (deleteRecordFlow dev now localSt cloud recordId).2 recordId).map
          fun d => (d.record.id, d.deleted, d.cloudUpdatedAt, d.deviceId))
        = some (recordId, true, now, dev)) ∧
    (∀ (dev : String) (now : Nat) (snap : List CloudRecord) (st : SyncState)
        (r : SRecord) (c : CloudRecord),
      getCloud snap r.id = some c → c.deleted = true →
      processLocal dev now snap st r =
        { st with localStore := removeLocal st.localStore r.id,
                  res := { st.res with deleted := st.res.deleted + 1 } }) ∧
    (∀ (l0 : List SRecord) (st : SyncState) (c : CloudRecord),
      c.deleted = true → processCloudOnly l0 st c = st) ∧
    ((syncToCloud "B" 200 [⟨1, "note", "d", 5, 10⟩]
        (cloudDeleteRecord "A" 100
          (syncToCloud "A" 50 [⟨1, "note", "d", 5, 10⟩] []).cloudStore
          1)).localStore = [] ∧
     (syncToCloud "B" 200 [⟨1, "note", "d", 5, 10⟩]
        (cloudDeleteRecord "A" 100
          (syncToCloud "A" 50 [⟨1, "note", "d", 5, 10⟩] []).cloudStore
          1)).res.deleted = 1) := by
  refine ⟨?_, ?_, ?_, ?_, by decide, by decide⟩
  · intro dev now localSt cloud recordId
    exact getLocal_remove_same localSt recordId
  · intro dev now localSt cloud recordId
    unfold deleteRecordFlow cloudDeleteRecord
    cases hg : getCloud cloud recordId with
    | some c =>
        have hcid : c.record.id = recordId := (getCloud_eq_some hg).1
        have hrid :
            ({ c with deleted := true, cloudUpdatedAt := now, deviceId := dev } : CloudRecord).record.id = recordId :=
          hcid
        have hsame := getCloud_put_same cloud
          { c with deleted := true, cloudUpdatedAt := now, deviceId := dev }
        rw [hrid] at hsame
        rw [hsame]
        simp [hcid]
    | none =>
        have happ : getCloud
            (cloud ++ [⟨⟨recordId, "", "", 0, 0⟩, now, dev, true⟩]) recordId
            = some ⟨⟨recordId, "", "", 0, 0⟩, now, dev, true⟩ := by
          unfold getCloud getBy
          unfold getCloud getBy at hg
          rw [find?_append_none _ _ _ hg]
          exact find?_cons_pos _ _ _ (by simp)
        rw [happ]
        rfl
  · intro dev now snap st r c hc hdel
    simp [processLocal, hc, hdel]
  · intro l0 st c hdel
    cases hh : hasLocal l0 c.record.id <;> simp [processCloudOnly, hh, hdel]

/-- C5 witness: the tombstone branch of the step-4 loop applied to a
concrete record and snapshot. -/
theorem c5_witness :
    processLocal "B" 200 [⟨⟨1, "note", "d", 5, 10⟩, 100, "A", true⟩]
      ⟨[⟨1, "note", "d", 5, 10⟩], [⟨⟨1, "note", "d", 5, 10⟩, 100, "A", true⟩],
        ⟨0, 0, 0, 0, []⟩⟩
      ⟨1, "note", "d", 5, 10⟩ =
      { localStore := removeLocal [⟨1, "note", "d", 5, 10⟩] 1
        cloudStore := [⟨⟨1, "note", "d", 5, 10⟩, 100, "A", true⟩]
        res := ⟨0, 0, 1, 0, []⟩ } := by
  have h := c5_tombstone_propagation.2.2.1 "B" 200
    [⟨⟨1, "note", "d", 5, 10⟩, 100, "A", true⟩]
    ⟨[⟨1, "note", "d", 5, 10⟩], [⟨⟨1, "note", "d", 5, 10⟩, 100, "A", true⟩],
      ⟨0, 0, 0, 0, []⟩⟩
    ⟨1, "note", "d", 5, 10⟩ ⟨⟨1, "note", "d", 5, 10⟩, 100, "A", true⟩
    (by decide) rfl
  rw [h]

/-- C10: `downloadAllRecords` excludes every tombstone whose
`cloudUpdatedAt` lies more than 24 hours (86,400,000 ms) before now, so
a `syncToCloud` run in which every cloud tombstone is that old applies
no deletion at all: its deleted tally is 0 and every local record whose
cloud document is a tombstone (or absent) is still present, unchanged,
after the run — a device that misses the 24-hour window keeps its copy
even while the tombstone document still exists in the cloud. -/
theorem c10_stale_tombstones_not_applied :
    (∀ (now : Nat) (cloud : List CloudRecord) (c : CloudRecord),
      c ∈ cloud → c.deleted = true → TOMBSTONE_WINDOW < now - c.cloudUpdatedAt →
      c ∉ downloadAllRecords now cloud) ∧
    (∀ (dev : String) (now : Nat) (localSt : List SRecord)
        (cloud : List CloudRecord),
      (∀ c ∈ cloud, c.deleted = true → ¬ now - c.cloudUpdatedAt < TOMBSTONE_WINDOW) →
      (localSt.map fun r => r.id).Nodup →
      (cloud.map fun c => c.record.id).Nodup →
      (syncToCloud dev now localSt cloud).res.deleted = 0 ∧
      (∀ r ∈ localSt,
        (∀ c, getCloud cloud r.id = some c → c.deleted = true) →
        getLocal (syncToCloud dev now localSt cloud).localStore r.id = some r)) := by
  constructor
  · intro now cloud c hmem hdel hold hin
    unfold downloadAllRecords at hin
    have hkeep := (List.mem_filter.mp hin).2
    rw [keepPred, hdel] at hkeep
    simp only [Bool.not_true, Bool.false_or, Bool.and_eq_true, decide_eq_true_eq] at hkeep
    omega
  · intro dev now localSt cloud hstale hndl hndc
    have hsnapnone : ∀ r ∈ localSt,
        (∀ c, getCloud cloud r.id = some c → c.deleted = true) →
        getCloud (downloadAllRecords now cloud) r.id = none := by
      intro r _ htomb
      rw [getCloud_downloadAll now cloud r.id hndc]
      cases hg : getCloud cloud r.id with
      | none => rfl
      | some c =>
          have hdel : c.deleted = true := htomb c hg
          have hmem : c ∈ cloud := (getCloud_eq_some hg).2
          have hstalec := hstale c hmem hdel
          have hkeep : keepPred now c = false := by
            rw [keepPred, hdel]
            simp only [Bool.not_true, Bool.false_or, Bool.and_eq_false_iff]
            right
            simpa using hstalec
          simp [filterGet, hkeep]
    have hsnaplive : ∀ c ∈ downloadAllRecords now cloud, c.deleted = false := by
      intro c hm
      unfold downloadAllRecords at hm
      have hmem := (List.mem_filter.mp hm).1
      have hkeep := (List.mem_filter.mp hm).2
      cases hd : c.deleted with
      | false => rfl
      | true =>
          rw [keepPred, hd] at hkeep
          simp only [Bool.not_true, Bool.false_or, Bool.and_eq_true,
            decide_eq_true_eq] at hkeep
          exact absurd hkeep.2 (hstale c hmem hd)
    constructor
    · apply syncToCloud_deleted_zero
      intro r hr
      unfold tombFlag
      cases hg : getCloud (downloadAllRecords now cloud) r.id with
      | none => rfl
      | some c => exact hsnaplive c (getCloud_eq_some hg).2
    · intro r hr htomb
      have hnone := hsnapnone r hr htomb
      have heff : localEffect (downloadAllRecords now cloud) r = none := by
        unfold localEffect
        rw [hnone]
      have hget : getLocal localSt r.id = some r := by
        unfold getLocal
        exact getBy_mem _ hndl hr
      rw [syncToCloud_localStore_char dev now localSt cloud r.id hndl hndc, hnone]
      show step4LocalAt dev now localSt cloud r.id = some r
      unfold step4LocalAt
      rw [hget]
      show applyLocalEff (localEffect (downloadAllRecords now cloud) r) (some r)
        = some r
      rw [heff]
      rfl

/-- C10 witness: a tombstone written at instant 100 observed at instant
100 + 24 h + 1 ms: the local copy survives the sync and nothing is
deleted. -/
theorem c10_witness :
    (syncToCloud "B" 86400101 [⟨1, "note", "d", 5, 10⟩]
      [⟨⟨1, "note", "", 0, 0⟩, 100, "A", true⟩]).res.deleted = 0 ∧
    getLocal (syncToCloud "B" 86400101 [⟨1, "note", "d", 5, 10⟩]
      [⟨⟨1, "note", "", 0, 0⟩, 100, "A", true⟩]).localStore 1
      = some ⟨1, "note", "d", 5, 10⟩ := by
  have h := c10_stale_tombstones_not_applied.2 "B" 86400101
    [⟨1, "note", "d", 5, 10⟩] [⟨⟨1, "note", "", 0, 0⟩, 100, "A", true⟩]
    (by intro c hc hd; fin_cases hc <;> decide)
    (by decide) (by decide)
  refine ⟨h.1, ?_⟩
  have := h.2 ⟨1, "note", "d", 5, 10⟩ (by decide)
    (by intro c hg; have := (getCloud_eq_some hg).2; fin_cases this <;> simp_all)
  exact this

/-! ## Supporting lemmas for the second-sync analysis (claim C1) -/

theorem filterGet_eq_some {α : Type} {p : α → Bool} {o : Option α} {x : α}
    (h : filterGet p o = some x) : o = some x ∧ p x = true := by
  cases o with
  | none => simp [filterGet] at h
  | some y =>
      by_cases hp : p y = true
      · simp only [filterGet, if_pos hp, Option.some.injEq] at h
        subst h
        exact ⟨rfl, hp⟩
      · simp [filterGet, hp] at h

theorem keepPred_of_live (now : Nat) (c : CloudRecord)
    (h : c.deleted = false) : keepPred now c = true := by
  unfold keepPred
  simp [h]

theorem keepPred_mono_false {c : CloudRecord} {t1 t2 : Nat} (h12 : t1 ≤ t2)
    (h : keepPred t1 c = false) : keepPred t2 c = false := by
  unfold keepPred at h ⊢
  cases hd : c.deleted with
  | false => rw [hd] at h; simp at h
  | true =>
      rw [hd] at h
      simp only [Bool.not_true, Bool.false_or] at h ⊢
      cases hcu : (c.cloudUpdatedAt != 0) with
      | false => simp
      | true =>
          rw [hcu] at h
          simp only [Bool.true_and] at h ⊢
          simp only [decide_eq_false_iff_not] at h ⊢
          omega

theorem uploadRecord_eq_none {dev : String} {now : Nat} {r : SRecord}
    (h : uploadRecord dev now r = none) : validRecord r = false := by
  unfold uploadRecord at h
  by_cases hv : validRecord r = true
  · rw [if_pos hv] at h
    cases h
  · simpa using hv

theorem uploadRecord_none_of_invalid (dev : String) (now : Nat) (r : SRecord)
    (h : validRecord r = false) : uploadRecord dev now r = none := by
  unfold uploadRecord
  simp [h]

theorem getLocal_eq_some {l : List SRecord} {i : Nat} {r : SRecord}
    (h : getLocal l i = some r) : r.id = i ∧ r ∈ l := by
  unfold getLocal at h
  exact getBy_eq_some (fun x : SRecord => x.id) h

theorem cloudEffect_eq_some {dev : String} {now : Nat}
    {snap : List CloudRecord} {r : SRecord} {cup : CloudRecord}
    (h : cloudEffect dev now snap r = some cup) :
    cup = ⟨r, now, dev, false⟩ ∧ validRecord r = true := by
  unfold cloudEffect at h
  cases hg : getCloud snap r.id with
  | none =>
      rw [hg] at h
      exact uploadRecord_eq_some h
  | some c =>
      rw [hg] at h
      by_cases hd : c.deleted = true
      · simp [hd] at h
      · have hd' : c.deleted = false := by simpa using hd
        simp only [hd', Bool.false_eq_true, if_false] at h
        by_cases h1 : c.cloudUpdatedAt < r.updatedAt
        · rw [if_pos h1] at h
          by_cases hdev : (c.deviceId != dev) = true
          · rw [if_pos hdev] at h
            exact uploadRecord_eq_some h
          · rw [if_neg hdev] at h
            cases h
        · rw [if_neg h1] at h
          cases h

theorem effects_of_none (dev : String) (now : Nat) (snap : List CloudRecord)
    (r : SRecord) (hg : getCloud snap r.id = none)
    (hv : validRecord r = false) :
    cloudEffect dev now snap r = none ∧ tombFlag snap r = false := by
  unfold cloudEffect tombFlag
  rw [hg]
  exact ⟨uploadRecord_none_of_invalid dev now r hv, rfl⟩

theorem effects_of_live (dev : String) (now : Nat) (snap : List CloudRecord)
    (r : SRecord) (c : CloudRecord) (hg : getCloud snap r.id = some c)
    (hd : c.deleted = false)
    (hcond : c.cloudUpdatedAt < r.updatedAt →
      (c.deviceId != dev) = false ∨ validRecord r = false) :
    cloudEffect dev now snap r = none ∧ tombFlag snap r = false := by
  unfold cloudEffect tombFlag
  rw [hg]
  refine ⟨?_, hd⟩
  simp only [hd, Bool.false_eq_true, if_false]
  by_cases h1 : c.cloudUpdatedAt < r.updatedAt
  · rw [if_pos h1]
    cases hcond h1 with
    | inl hdev => rw [if_neg (by simp [hdev])]
    | inr hv =>
        rw [uploadRecord_none_of_invalid dev now r hv]
        split <;> rfl
  · rw [if_neg h1]

/-- After the step-4 loop of a sync at `t1`, a record that survived at
its own id (untouched or overwritten) can be neither uploaded nor
deleted by a later sync at `t2 ≥ t1` against the resulting cloud
store. -/
theorem step4_survivor_conditions (dev : String) (t1 t2 : Nat)
    (l0 : List SRecord) (c0 : List CloudRecord)
    (hndl : (l0.map fun r => r.id).Nodup)
    (hndc : (c0.map fun c => c.record.id).Nodup)
    (ht : t1 ≤ t2)
    (hlu : ∀ r ∈ l0, r.updatedAt ≤ t1)
    (hcu : ∀ c ∈ c0, c.record.updatedAt ≤ c.cloudUpdatedAt)
    (r : SRecord)
    (h4 : step4LocalAt dev t1 l0 c0 r.id = some r) :
    cloudEffect dev t2
      (downloadAllRecords t2 (syncToCloud dev t1 l0 c0).cloudStore) r = none ∧
    tombFlag (downloadAllRecords t2 (syncToCloud dev t1 l0 c0).cloudStore) r
      = false := by
  have hndC1 := syncToCloud_cloudStore_nodup dev t1 l0 c0 hndl hndc
  have hG2 := getCloud_downloadAll t2 (syncToCloud dev t1 l0 c0).cloudStore
    r.id hndC1
  have hC1 := syncToCloud_cloudStore_char dev t1 l0 c0 r.id hndl
  unfold step4LocalAt at h4
  cases hl0 : getLocal l0 r.id with
  | none =>
      simp only [hl0] at h4
      exact Option.noConfusion h4
  | some r0 =>
      simp only [hl0] at h4 hC1
      have hr0 := getLocal_eq_some hl0
      cases he : localEffect (downloadAllRecords t1 c0) r0 with
      | none =>
          rw [he] at h4
          have hrr : r0 = r := by simpa [applyLocalEff] using h4
          subst hrr
          cases hce1 : cloudEffect dev t1 (downloadAllRecords t1 c0) r0 with
          | some cup =>
              obtain ⟨hcup, hv⟩ := cloudEffect_eq_some hce1
              have hC1v : getCloud (syncToCloud dev t1 l0 c0).cloudStore r0.id
                  = some cup := by
                rw [hC1, hce1]
                rfl
              have hlive : cup.deleted = false := by rw [hcup]
              have hG2v : getCloud
                  (downloadAllRecords t2 (syncToCloud dev t1 l0 c0).cloudStore)
                  r0.id = some cup := by
                rw [hG2, hC1v]
                simp [filterGet, keepPred_of_live t2 cup hlive]
              refine effects_of_live dev t2 _ r0 cup hG2v hlive ?_
              intro h1
              exfalso
              rw [hcup] at h1
              exact absurd h1 (Nat.not_lt.mpr (hlu r0 hr0.2))
          | none =>
              have hC1v : getCloud (syncToCloud dev t1 l0 c0).cloudStore r0.id
                  = getCloud c0 r0.id := by
                rw [hC1, hce1]
                rfl
              cases hs1 : getCloud (downloadAllRecords t1 c0) r0.id with
              | none =>
                  have hup : uploadRecord dev t1 r0 = none := by
                    unfold cloudEffect at hce1
                    rw [hs1] at hce1
                    exact hce1
                  have hinv := uploadRecord_eq_none hup
                  have hfc := getCloud_downloadAll t1 c0 r0.id hndc
                  rw [hs1] at hfc
                  cases hg0 : getCloud c0 r0.id with
                  | none =>
                      have hG2v : getCloud (downloadAllRecords t2
                          (syncToCloud dev t1 l0 c0).cloudStore) r0.id = none := by
                        rw [hG2, hC1v, hg0]
                        rfl
                      exact effects_of_none dev t2 _ r0 hG2v hinv
                  | some cx =>
                      rw [hg0] at hfc
                      have hkeep1 : keepPred t1 cx = false := by
                        by_cases hp : keepPred t1 cx = true
                        · rw [show filterGet (keepPred t1) (some cx) = some cx
                            from by simp [filterGet, hp]] at hfc
                          exact Option.noConfusion hfc
                        · simpa using hp
                      have hkeep2 := keepPred_mono_false ht hkeep1
                      have hG2v : getCloud (downloadAllRecords t2
                          (syncToCloud dev t1 l0 c0).cloudStore) r0.id = none := by
                        rw [hG2, hC1v, hg0]
                        simp [filterGet, hkeep2]
                      exact effects_of_none dev t2 _ r0 hG2v hinv
              | some c1 =>
                  have hfil := getCloud_downloadAll t1 c0 r0.id hndc
                  rw [hs1] at hfil
                  have hfrom := filterGet_eq_some hfil.symm
                  have hmem1 : c1 ∈ c0 := (getCloud_eq_some hfrom.1).2
                  unfold localEffect at he
                  simp only [hs1] at he
                  by_cases hd1 : c1.deleted = true
                  · rw [if_pos hd1] at he
                    exact Option.noConfusion he
                  · have hd1f : c1.deleted = false := by simpa using hd1
                    have hC1vv : getCloud (syncToCloud dev t1 l0 c0).cloudStore
                        r0.id = some c1 := by
                      rw [hC1v, hfrom.1]
                    have hG2v : getCloud (downloadAllRecords t2
                        (syncToCloud dev t1 l0 c0).cloudStore) r0.id
                        = some c1 := by
                      rw [hG2, hC1vv]
                      simp [filterGet, keepPred_of_live t2 c1 hd1f]
                    refine effects_of_live dev t2 _ r0 c1 hG2v hd1f ?_
                    intro h1
                    unfold cloudEffect at hce1
                    simp only [hs1, hd1f, Bool.false_eq_true, if_false,
                      if_pos h1] at hce1
                    by_cases hdev : (c1.deviceId != dev) = true
                    · right
                      rw [if_pos hdev] at hce1
                      exact uploadRecord_eq_none hce1
                    · left
                      simpa using hdev
      | some o =>
          cases o with
          | none =>
              rw [he] at h4
              exact absurd h4 (by simp [applyLocalEff])
          | some x =>
              rw [he] at h4
              have hxr : x = r := by simpa [applyLocalEff] using h4
              subst hxr
              cases hs1 : getCloud (downloadAllRecords t1 c0) r0.id with
              | none =>
                  unfold localEffect at he
                  simp only [hs1] at he
                  exact Option.noConfusion he
              | some c1 =>
                  have hfil := getCloud_downloadAll t1 c0 r0.id hndc
                  rw [hs1] at hfil
                  have hfrom := filterGet_eq_some hfil.symm
                  have hmem1 : c1 ∈ c0 := (getCloud_eq_some hfrom.1).2
                  unfold localEffect at he
                  simp only [hs1] at he
                  by_cases hd1 : c1.deleted = true
                  · rw [if_pos hd1] at he
                    exact Option.noConfusion (Option.some.inj he)
                  · have hd1f : c1.deleted = false := by simpa using hd1
                    by_cases h1 : c1.cloudUpdatedAt < r0.updatedAt
                    · simp only [hd1f, Bool.false_eq_true, if_false,
                        if_pos h1] at he
                      exact Option.noConfusion he
                    · by_cases h2 : r0.updatedAt < c1.cloudUpdatedAt
                      · simp only [hd1f, Bool.false_eq_true, if_false,
                          if_neg h1, if_pos h2, Option.some.injEq] at he
                        have hcr : c1.record = x := he
                        have hce1 : cloudEffect dev t1
                            (downloadAllRecords t1 c0) r0 = none := by
                          unfold cloudEffect
                          simp only [hs1]
                          simp [hd1f, h1]
                        have hC1v : getCloud
                            (syncToCloud dev t1 l0 c0).cloudStore x.id
                            = getCloud c0 x.id := by
                          rw [hC1, hce1]
                          rfl
                        have hfc : getCloud c0 x.id = some c1 := by
                          rw [← hr0.1]
                          exact hfrom.1
                        have hC1vv : getCloud
                            (syncToCloud dev t1 l0 c0).cloudStore x.id
                            = some c1 := by
                          rw [hC1v, hfc]
                        have hG2v : getCloud (downloadAllRecords t2
                            (syncToCloud dev t1 l0 c0).cloudStore) x.id
                            = some c1 := by
                          rw [hG2, hC1vv]
                          simp [filterGet, keepPred_of_live t2 c1 hd1f]
                        refine effects_of_live dev t2 _ x c1 hG2v hd1f ?_
                        intro hlt
                        exfalso
                        rw [← hcr] at hlt
                        exact absurd hlt (Nat.not_lt.mpr (hcu c1 hmem1))
                      · simp only [hd1f, Bool.false_eq_true, if_false,
                          if_neg h1, if_neg h2] at he
                        exact Option.noConfusion he

/-- Every record present in the local store after a sync at `t1`
satisfies, at any later `t2`, the no-upload/no-delete conditions against
the post-sync cloud store. -/
theorem second_sync_record_conditions (dev : String) (t1 t2 : Nat)
    (l0 : List SRecord) (c0 : List CloudRecord)
    (hndl : (l0.map fun r => r.id).Nodup)
    (hndc : (c0.map fun c => c.record.id).Nodup)
    (ht : t1 ≤ t2)
    (hlu : ∀ r ∈ l0, r.updatedAt ≤ t1)
    (hcu : ∀ c ∈ c0, c.record.updatedAt ≤ c.cloudUpdatedAt)
    (r : SRecord) (hr : r ∈ (syncToCloud dev t1 l0 c0).localStore) :
    cloudEffect dev t2
      (downloadAllRecords t2 (syncToCloud dev t1 l0 c0).cloudStore) r = none ∧
    tombFlag (downloadAllRecords t2 (syncToCloud dev t1 l0 c0).cloudStore) r
      = false := by
  have hndL1 := syncToCloud_localStore_nodup dev t1 l0 c0 hndl hndc
  have hndC1 := syncToCloud_cloudStore_nodup dev t1 l0 c0 hndl hndc
  have hgr : getLocal (syncToCloud dev t1 l0 c0).localStore r.id = some r := by
    unfold getLocal
    exact getBy_mem _ hndL1 hr
  rw [syncToCloud_localStore_char dev t1 l0 c0 r.id hndl hndc] at hgr
  cases hs1 : getCloud (downloadAllRecords t1 c0) r.id with
  | none =>
      simp only [hs1] at hgr
      exact step4_survivor_conditions dev t1 t2 l0 c0 hndl hndc ht hlu hcu r hgr
  | some c =>
      simp only [hs1] at hgr
      by_cases hcond : (hasLocal l0 c.record.id || c.deleted) = true
      · rw [if_pos hcond] at hgr
        exact step4_survivor_conditions dev t1 t2 l0 c0 hndl hndc ht hlu hcu r hgr
      · have hcondf : (hasLocal l0 c.record.id || c.deleted) = false := by
          simpa using hcond
        rw [if_neg (by simp [hcondf])] at hgr
        have hrc : c.record = r := Option.some.inj hgr
        have hnol : hasLocal l0 c.record.id = false :=
          (Bool.or_eq_false_iff.mp hcondf).1
        have hlive : c.deleted = false := (Bool.or_eq_false_iff.mp hcondf).2
        have hcid : c.record.id = r.id := (getCloud_eq_some hs1).1
        have hfil := getCloud_downloadAll t1 c0 r.id hndc
        rw [hs1] at hfil
        have hfrom := filterGet_eq_some hfil.symm
        have hmemc : c ∈ c0 := (getCloud_eq_some hfrom.1).2
        have hnol2 : getLocal l0 r.id = none := by
          apply getLocal_of_hasLocal_false
          rw [← hcid]
          exact hnol
        have hC1 := syncToCloud_cloudStore_char dev t1 l0 c0 r.id hndl
        simp only [hnol2] at hC1
        have hC1v : getCloud (syncToCloud dev t1 l0 c0).cloudStore r.id
            = some c := by
          rw [hC1, hfrom.1]
        have hG2 := getCloud_downloadAll t2
          (syncToCloud dev t1 l0 c0).cloudStore r.id hndC1
        have hG2v : getCloud (downloadAllRecords t2
            (syncToCloud dev t1 l0 c0).cloudStore) r.id = some c := by
          rw [hG2, hC1v]
          simp [filterGet, keepPred_of_live t2 c hlive]
        refine effects_of_live dev t2 _ r c hG2v hlive ?_
        intro h1
        exfalso
        rw [← hrc] at h1
        exact absurd h1 (Nat.not_lt.mpr (hcu c hmemc))

/-- C1 counterexample: one device creates a record (updatedAt 10), syncs
at instant 50 (uploading it, so the cloud copy carries
`cloudUpdatedAt = 50`), and syncs again at instant 60 with no
intervening mutation.  The second run sees the cloud copy strictly newer
than the local `updatedAt` and re-downloads it: the `SyncResult` of the
second, redundant sync reports `downloaded = 1`, not the
`uploaded = downloaded = deleted = 0` the claim demands. -/
theorem c1_counterexample_second_sync_redownloads :
    (syncToCloud "A" 60
        (syncToCloud "A" 50 [⟨1, "note", "d", 5, 10⟩] []).localStore
        (syncToCloud "A" 50 [⟨1, "note", "d", 5, 10⟩] []).cloudStore).res.downloaded
      = 1 ∧
    ¬ ((syncToCloud "A" 60
          (syncToCloud "A" 50 [⟨1, "note", "d", 5, 10⟩] []).localStore
          (syncToCloud "A" 50 [⟨1, "note", "d", 5, 10⟩] []).cloudStore).res.uploaded
        = 0 ∧
       (syncToCloud "A" 60
          (syncToCloud "A" 50 [⟨1, "note", "d", 5, 10⟩] []).localStore
          (syncToCloud "A" 50 [⟨1, "note", "d", 5, 10⟩] []).cloudStore).res.downloaded
        = 0 ∧
       (syncToCloud "A" 60
          (syncToCloud "A" 50 [⟨1, "note", "d", 5, 10⟩] []).localStore
          (syncToCloud "A" 50 [⟨1, "note", "d", 5, 10⟩] []).cloudStore).res.deleted
        = 0) := by
  decide

/-- C1 (amended): a second consecutive `syncToCloud` with no intervening
mutation reports `uploaded = 0` and `deleted = 0`, but its `downloaded`
tally is in general nonzero: the run re-downloads every record whose
cloud copy carries a `cloudUpdatedAt` strictly greater than the local
`updatedAt`, which after an upload is every previously-uploaded record.
Stated for every starting state whose stores are id-unique, whose local
records are not newer than the first sync's clock, whose cloud documents
satisfy `updatedAt ≤ cloudUpdatedAt`, and whose clock does not run
backwards between the two syncs. -/
theorem c1_second_sync_uploads_and_deletes_nothing (dev : String)
    (t1 t2 : Nat) (l0 : List SRecord) (c0 : List CloudRecord)
    (hndl : (l0.map fun r => r.id).Nodup)
    (hndc : (c0.map fun c => c.record.id).Nodup)
    (ht : t1 ≤ t2)
    (hlu : ∀ r ∈ l0, r.updatedAt ≤ t1)
    (hcu : ∀ c ∈ c0, c.record.updatedAt ≤ c.cloudUpdatedAt) :
    (syncToCloud dev t2 (syncToCloud dev t1 l0 c0).localStore
        (syncToCloud dev t1 l0 c0).cloudStore).res.uploaded = 0 ∧
    (syncToCloud dev t2 (syncToCloud dev t1 l0 c0).localStore
        (syncToCloud dev t1 l0 c0).cloudStore).res.deleted = 0 := by
  apply syncToCloud_counters_zero
  intro r hr
  exact second_sync_record_conditions dev t1 t2 l0 c0 hndl hndc ht hlu hcu r hr

/-- C1 witness: the amended theorem applied to the counterexample's
concrete state (one record created at 10, synced at 50 and again at
60). -/
theorem c1_witness :
    (syncToCloud "A" 60
        (syncToCloud "A" 50 [⟨1, "note", "d", 5, 10⟩] []).localStore
        (syncToCloud "A" 50 [⟨1, "note", "d", 5, 10⟩] []).cloudStore).res.uploaded
      = 0 ∧
    (syncToCloud "A" 60
        (syncToCloud "A" 50 [⟨1, "note", "d", 5, 10⟩] []).localStore
        (syncToCloud "A" 50 [⟨1, "note", "d", 5, 10⟩] []).cloudStore).res.deleted
      = 0 :=
  c1_second_sync_uploads_and_deletes_nothing "A" 50 60
    [⟨1, "note", "d", 5, 10⟩] [] (by decide) (by decide) (by decide)
    (by intro r hrm; fin_cases hrm; decide)
    (by intro c hcm; cases hcm)

end Pocket
